import Mathlib

/-!
Shallow embedding of the lexical front end of this repository:

* `src/scanner/scanner.rs` — the `Scanner` type with its token scanning pass;
* `src/helper/helper.rs` — the `Error` diagnostic type and `report_errors`;
* `src/main.rs` — the `run` glue (construct a scanner, scan, report).

Modelling conventions: Rust `Vec<char>` becomes `List Char`; `usize` and
`u128` become `Nat` (no arithmetic here can overflow those widths: `line`
and both cursors stay below `source.length + 2`); fallible operations —
out-of-bounds `Vec` indexing in `advance`, the `unwrap` after `parse::<f64>`
— return `Option`, with `none` modelling a Rust panic.  Two ghost fields
`startPos`/`endPos` are added to `Token`, recording the values of
`self.start` and `self.current` at the moment the token is pushed; they are
write-only instrumentation used to state positional properties.
-/

set_option maxHeartbeats 1000000

/-- Diagnostic type from `src/helper/helper.rs` (`struct Error`), fields in
source order. -/
structure Error where
  reason : String
  line : Nat
  deriving DecidableEq, Repr

/-- Constructor `Error::new(line, reason)` from `src/helper/helper.rs`. -/
def Error.new (line : Nat) (reason : String) : Error :=
  { reason := reason, line := line }

/-- Reporter `report_errors` from `src/helper/helper.rs`: one `println!`
line per diagnostic, in order.  The model returns the list of printed
lines; `println!("[Line {} ] Error: {}", error.line, error.reason)` prints
the shown concatenation (note the space between the line number and `]`,
exactly as in the format string of the source). -/
def report_errors (errors : List Error) : List String :=
  errors.map (fun e => "[Line " ++ toString e.line ++ " ] Error: " ++ e.reason)

/-- Token kinds from `src/scanner/scanner.rs` (`enum TokenType`), in source
order. -/
inductive TokenType where
  | LeftParen | RightParen | LeftBrace | RightBrace | Comma | Dot | Minus
  | Plus | SemiColon | Slash | Star
  | Bang | BangEqual | Equal | EqualEqual | Greater | GreaterEqual
  | Less | LessEqual
  | Identifier | String | Number
  | And | Class | Else | False | Fun | For | If | Nil | Or | Print
  | Return | Super | This | True | Var | While
  | EOF
  deriving DecidableEq, Repr

/-- Literal payloads from `src/scanner/scanner.rs` (`enum Literal`).  The
Rust `f64` payload of `Number` is modelled as an exact rational: every
number literal this scanner builds has the decimal form `digits(.digits)?`,
and on those both the scanner's `parse::<f64>` result and the reference
values of the repository's tests denote the correctly rounded double of the
same decimal, so equality of the rationals faithfully reflects equality of
the doubles. -/
inductive Literal where
  | Identifier (s : String)
  | String (s : String)
  | Number (q : ℚ)
  deriving DecidableEq, Repr

/-- Token record from `src/scanner/scanner.rs` (`struct Token`), plus the
two ghost position fields described in the file header. -/
structure Token where
  token_type : TokenType
  lexeme : String
  literal : Option Literal
  line : Nat
  startPos : Nat
  endPos : Nat
  deriving DecidableEq, Repr

/-- Scanner state from `src/scanner/scanner.rs` (`struct Scanner`).  The
`keywords` field of the Rust struct is the same immutable map for every
instance, so it is modelled as the top-level function `keywords` below. -/
structure Scanner where
  source : List Char
  tokens : List Token
  start : Nat
  current : Nat
  line : Nat
  errors : List Error
  deriving DecidableEq, Repr

/-- Keyword table built in `Scanner::new` (`HashMap::from([...])`),
an exact, case-sensitive lookup. -/
def keywords (s : String) : Option TokenType :=
  if s = "and" then some TokenType.And
  else if s = "class" then some TokenType.Class
  else if s = "else" then some TokenType.Else
  else if s = "false" then some TokenType.False
  else if s = "for" then some TokenType.For
  else if s = "fun" then some TokenType.Fun
  else if s = "if" then some TokenType.If
  else if s = "nil" then some TokenType.Nil
  else if s = "or" then some TokenType.Or
  else if s = "print" then some TokenType.Print
  else if s = "return" then some TokenType.Return
  else if s = "super" then some TokenType.Super
  else if s = "this" then some TokenType.This
  else if s = "true" then some TokenType.True
  else if s = "var" then some TokenType.Var
  else if s = "while" then some TokenType.While
  else none

/-- Constructor `Scanner::new`: `source.chars().collect()` with both
cursors at 0, line 1, and empty token and error vectors. -/
def Scanner.new (source : String) : Scanner :=
  { source := source.data, tokens := [], start := 0, current := 0,
    line := 1, errors := [] }

/-- Characters of the Rust slice `&source[a..b]`.  Every slice the scanner
takes satisfies `a ≤ b ≤ source.length`, where `take`/`drop` agree with the
Rust range indexing. -/
def sliceCh (src : List Char) (a b : Nat) : List Char :=
  (src.take b).drop a

/-- Predicate `Scanner::is_at_end`. -/
def Scanner.is_at_end (s : Scanner) : Bool :=
  s.source.length ≤ s.current

/-- Method `Scanner::advance`: read `source[current]` (a panic — modelled
as `none` — when the index is out of bounds) and step the cursor. -/
def Scanner.advance (s : Scanner) : Option (Char × Scanner) :=
  match s.source[s.current]? with
  | some c => some (c, { s with current := s.current + 1 })
  | none => none

/-- Method `Scanner::peek`: `'\0'` at or past the end of the buffer,
otherwise `source[current]`. -/
def Scanner.peek (s : Scanner) : Char :=
  if s.is_at_end then '\x00' else s.source.getD s.current '\x00'

/-- Method `Scanner::peek_next`: `'\0'` when `current + 1` is out of
bounds, otherwise `source[current + 1]`. -/
def Scanner.peek_next (s : Scanner) : Char :=
  if s.source.length ≤ s.current + 1 then '\x00'
  else s.source.getD (s.current + 1) '\x00'

/-- Method `Scanner::matches`: conditional one-character lookahead consume.
The Rust `||` is short-circuiting, so `source[current]` is only read when
the scanner is not at the end; `getD` makes that read total, its default
unreachable under the guard. -/
def Scanner.matches (s : Scanner) (expected : Char) : Bool × Scanner :=
  if s.is_at_end ∨ s.source.getD s.current '\x00' ≠ expected then (false, s)
  else (true, { s with current := s.current + 1 })

/-- Method `Scanner::add_token_literal`: push a token whose lexeme is the
slice `&source[start..current]`; `line` is read at push time.  The ghost
fields record `start` and `current`. -/
def Scanner.add_token_literal (s : Scanner) (token : TokenType)
    (literal : Option Literal) : Scanner :=
  { s with tokens := s.tokens ++
      [{ token_type := token,
         lexeme := String.mk (sliceCh s.source s.start s.current),
         literal := literal, line := s.line,
         startPos := s.start, endPos := s.current }] }

/-- Method `Scanner::add_token`. -/
def Scanner.add_token (s : Scanner) (token : TokenType) : Scanner :=
  s.add_token_literal token none

/-- Method `Scanner::string`.  The Rust loop
`while peek() != '"' && !is_at_end() { if peek() == '\n' { line += 1 };
advance() }` consumes exactly the maximal run of non-quote characters from
`current` (summarised with `takeWhile`), bumping `line` once per consumed
newline.  The unconditional `advance()` that follows consumes the closing
quote — or panics (`none`) when the loop stopped at end-of-buffer.  The
literal is the slice strictly between the two quotes. -/
def Scanner.string (s : Scanner) : Option Scanner :=
  let body := (s.source.drop s.current).takeWhile (fun ch => ch != '"')
  let s1 : Scanner :=
    { s with current := s.current + body.length,
             line := s.line + body.count '\n' }
  match s1.advance with
  | none => none
  | some cs2 =>
    let s2 := cs2.2
    let str := String.mk (sliceCh s2.source (s2.start + 1) (s2.current - 1))
    some (s2.add_token_literal TokenType.String (some (Literal.String str)))

/-- Value of a run of decimal digit characters (most significant first). -/
def digitsVal (l : List Char) : Nat :=
  l.foldl (fun n c => n * 10 + (c.toNat - 48)) 0

/-- Result of Rust `str::parse::<f64>` on the decimal shapes
`digits(.digits)?` that `Scanner::number` can produce, as an exact
rational (see `Literal`).  On any other string the model returns `none`;
`Scanner::number` then treats `none` as the `unwrap` panic, which is sound
here because the scanner is proved to hand only grammar-shaped strings to
the parser. -/
def parseF64 (v : String) : Option ℚ :=
  let l := v.data
  let intPart := l.takeWhile Char.isDigit
  let rest := l.drop intPart.length
  if intPart.length = 0 then none
  else
    match rest with
    | [] => some (digitsVal intPart : ℚ)
    | '.' :: frac =>
      if frac.length ≠ 0 ∧ frac.all Char.isDigit then
        some ((digitsVal intPart : ℚ) +
              (digitsVal frac : ℚ) / ((10 : ℚ) ^ frac.length))
      else none
    | _ => none

/-- Method `Scanner::number`.  Both digit loops
(`while peek().is_digit(10) { advance() }`) are summarised with
`takeWhile`; the `.` is consumed only when `peek()` is `.` and
`peek_next()` is a digit; the consumed slice is parsed, `unwrap` modelled
by the `none` branch. -/
def Scanner.number (s : Scanner) : Option Scanner :=
  let s1 : Scanner :=
    { s with current :=
        s.current + ((s.source.drop s.current).takeWhile Char.isDigit).length }
  let s2 : Scanner :=
    if s1.peek = '.' ∧ s1.peek_next.isDigit then
      let s1a : Scanner := { s1 with current := s1.current + 1 }
      { s1a with current :=
          s1a.current +
            ((s1a.source.drop s1a.current).takeWhile Char.isDigit).length }
    else s1
  let value := String.mk (sliceCh s2.source s2.start s2.current)
  match parseF64 value with
  | none => none
  | some q => some (s2.add_token_literal TokenType.Number (some (Literal.Number q)))

/-- Rust `char::is_alphabetic` (the Unicode `Alphabetic` property), an
UNDER-APPROXIMATION: it is modelled on the letter ranges this development
exercises — ASCII letters, the Latin-1 supplement letters, Latin
Extended-A/B and IPA extensions, Greek letters, and the base Cyrillic
letters.  On every code point inside these ranges the definition agrees
with Unicode, and below code point 128 it is provably exact (lemma
`rustIsAlphabetic_ascii`); code points outside the listed ranges are
classified non-alphabetic by the model even when Unicode marks them
`Alphabetic` (for example the Hebrew block).  Theorems whose truth depends
on classifying such code points are therefore stated over all-ASCII
sources, where the model and Rust coincide exactly. -/
def rustIsAlphabetic (c : Char) : Bool :=
  (65 ≤ c.toNat ∧ c.toNat ≤ 90) ∨ (97 ≤ c.toNat ∧ c.toNat ≤ 122) ∨
  (0xC0 ≤ c.toNat ∧ c.toNat ≤ 0xD6) ∨ (0xD8 ≤ c.toNat ∧ c.toNat ≤ 0xF6) ∨
  (0xF8 ≤ c.toNat ∧ c.toNat ≤ 0x2AF) ∨ c.toNat = 0x386 ∨
  (0x388 ≤ c.toNat ∧ c.toNat ≤ 0x3F5 ∧ c.toNat ≠ 0x38B ∧
   c.toNat ≠ 0x38D ∧ c.toNat ≠ 0x3A2) ∨
  (0x400 ≤ c.toNat ∧ c.toNat ≤ 0x481)

/-- Rust `char::is_alphanumeric` = alphabetic or numeric, an
UNDER-APPROXIMATION on the same terms as `rustIsAlphabetic`: the numeric
side is modelled by the ASCII digits (Unicode digits such as the
Arabic-Indic ones are classified false).  Below code point 128 the model
is provably exact (lemma `rustIsAlphanumeric_ascii`). -/
def rustIsAlphanumeric (c : Char) : Bool :=
  rustIsAlphabetic c || c.isDigit

/-- Method `Scanner::is_alpha` (its `&self` parameter is unused). -/
def Scanner.is_alpha (c : Char) : Bool :=
  rustIsAlphabetic c || c == '_'

/-- Method `Scanner::identifier`.  The loop
`while peek().is_alphanumeric() { advance() }` is summarised with
`takeWhile`; the consumed slice is looked up in the keyword table: a hit
emits the keyword kind with literal `Identifier(value)`, a miss emits
`Identifier` with no literal. -/
def Scanner.identifier (s : Scanner) : Scanner :=
  let s1 : Scanner :=
    { s with current :=
        s.current +
          ((s.source.drop s.current).takeWhile rustIsAlphanumeric).length }
  let value := String.mk (sliceCh s1.source s1.start s1.current)
  match keywords value with
  | some keyword => s1.add_token_literal keyword (some (Literal.Identifier value))
  | none => s1.add_token TokenType.Identifier

/-- Method `Scanner::scan_token`: advance over one character and dispatch
on it.  The Rust `match` arms are translated to a nested conditional in
source order (the arms are mutually exclusive); the comment loop
`while peek() != '\n' && !is_at_end() { advance() }` is summarised with
`takeWhile`.  Note the whitespace arm `' ' | '\r' | 't'`: it matches the
letter `t`, exactly as written in the source. -/
def Scanner.scan_token (s : Scanner) : Option Scanner :=
  match s.advance with
  | none => none
  | some cs1 =>
    let c := cs1.1
    let s1 := cs1.2
    if c = '(' then some (s1.add_token TokenType.LeftParen)
    else if c = ')' then some (s1.add_token TokenType.RightParen)
    else if c = '\x7b' then some (s1.add_token TokenType.LeftBrace)
    else if c = '\x7d' then some (s1.add_token TokenType.RightBrace)
    else if c = ',' then some (s1.add_token TokenType.Comma)
    else if c = '.' then some (s1.add_token TokenType.Dot)
    else if c = '-' then some (s1.add_token TokenType.Minus)
    else if c = '+' then some (s1.add_token TokenType.Plus)
    else if c = ';' then some (s1.add_token TokenType.SemiColon)
    else if c = '*' then some (s1.add_token TokenType.Star)
    else if c = '!' then
      let ms := s1.matches '='
      some (ms.2.add_token (if ms.1 then TokenType.BangEqual else TokenType.Bang))
    else if c = '=' then
      let ms := s1.matches '='
      some (ms.2.add_token (if ms.1 then TokenType.EqualEqual else TokenType.Equal))
    else if c = '<' then
      let ms := s1.matches '='
      some (ms.2.add_token (if ms.1 then TokenType.LessEqual else TokenType.Less))
    else if c = '>' then
      let ms := s1.matches '='
      some (ms.2.add_token (if ms.1 then TokenType.GreaterEqual else TokenType.Greater))
    else if c = '/' then
      let ms := s1.matches '/'
      if ms.1 then
        some { ms.2 with current :=
          ms.2.current +
            ((ms.2.source.drop ms.2.current).takeWhile (fun ch => ch != '\n')).length }
      else some (ms.2.add_token TokenType.Slash)
    else if c = ' ' ∨ c = '\r' ∨ c = 't' then some s1
    else if c = '\n' then some { s1 with line := s1.line + 1 }
    else if c = '"' then s1.string
    else if c.isDigit then s1.number
    else if Scanner.is_alpha c then some s1.identifier
    else some { s1 with errors :=
      s1.errors ++ [Error.new s1.line "Unexpected Character"] }

/-- Loop body of `Scanner::scan_tokens`: while not at the end, set
`start := current` and run `scan_token`; then push the `EOF` token (empty
lexeme, current line).  The explicit fuel bounds the iteration count; each
iteration advances `current` by at least one, so `source.length + 1` units
(supplied by `Scanner.scan_tokens`) always suffice — lemmas below prove
the result is independent of any sufficient fuel, so `none` means exactly
that `scan_token` panicked. -/
def Scanner.scan_tokens_go : Nat → Scanner → Option Scanner
  | 0, _ => none
  | Nat.succ fuel, s =>
    if s.is_at_end then
      some { s with tokens := s.tokens ++
        [{ token_type := TokenType.EOF, lexeme := "", literal := none,
           line := s.line, startPos := s.current, endPos := s.current }] }
    else
      match Scanner.scan_token { s with start := s.current } with
      | none => none
      | some s2 => Scanner.scan_tokens_go fuel s2

/-- Method `Scanner::scan_tokens`.  The final state carries both outputs:
the token vector (ending in `EOF`) and the error vector that the Rust
method returns. -/
def Scanner.scan_tokens (s : Scanner) : Option Scanner :=
  Scanner.scan_tokens_go (s.source.length + 1) s

/-- The scan part of `run` from `src/main.rs`: build a scanner from the
source text and run the single pass. -/
def scanSource (src : String) : Option Scanner :=
  (Scanner.new src).scan_tokens

/-- Specification-side decomposition piece: each iteration of the scanning
loop either emits one token or skips a stretch of source — a whitespace
character (`' '`, `'\r'`, or the letter `'t'` of the source's whitespace
arm), a newline, a line comment, or one unrecognized character recorded as
a diagnostic. -/
inductive Piece where
  | tok (t : Token)
  | ws (c : Char)
  | nl
  | comment (cs : List Char)
  | bad (c : Char) (line : Nat)
  deriving DecidableEq, Repr

/-- Source characters covered by a piece. -/
def Piece.chars : Piece → List Char
  | .tok t => t.lexeme.data
  | .ws c => [c]
  | .nl => ['\n']
  | .comment cs => cs
  | .bad c _ => [c]

/-- Token emitted by a piece, if any. -/
def Piece.tokenOf : Piece → Option Token
  | .tok t => some t
  | _ => none

/-- Diagnostic recorded by a piece, if any. -/
def Piece.errorOf : Piece → Option Error
  | .bad _ line => some { reason := "Unexpected Character", line := line }
  | _ => none

/-- Well-formedness of a piece sitting at position `pos` of `src`: its
characters are exactly the source slice it covers; an emitted token
carries that slice as its lexeme, is never `EOF`, records the line count
of the source up to its end (so up to its start unless it is a string,
whose lexeme alone may contain newlines); skipped pieces have the shapes
described at `Piece`. -/
def PieceAt (src : List Char) (pos : Nat) : Piece → Prop
  | .tok t =>
      t.startPos = pos ∧ t.endPos = pos + t.lexeme.data.length ∧
      t.endPos ≤ src.length ∧ pos < t.endPos ∧
      t.lexeme.data = sliceCh src t.startPos t.endPos ∧
      t.token_type ≠ TokenType.EOF ∧
      t.line = 1 + (src.take t.endPos).count '\n' ∧
      (t.token_type ≠ TokenType.String → t.lexeme.data.count '\n' = 0)
  | .ws c =>
      (c = ' ' ∨ c = '\r' ∨ c = 't') ∧ sliceCh src pos (pos + 1) = [c] ∧
      pos < src.length
  | .nl => sliceCh src pos (pos + 1) = ['\n'] ∧ pos < src.length
  | .comment cs =>
      cs = sliceCh src pos (pos + cs.length) ∧ pos + cs.length ≤ src.length ∧
      cs.take 2 = ['/', '/'] ∧ cs.count '\n' = 0
  | .bad c line =>
      sliceCh src pos (pos + 1) = [c] ∧ pos < src.length ∧
      line = 1 + (src.take pos).count '\n'

/-- Contiguous chain of well-formed pieces covering the region `[a, b)` of
`src`. -/
inductive PiecesFrom (src : List Char) : Nat → List Piece → Nat → Prop where
  | nil (pos : Nat) : PiecesFrom src pos [] pos
  | cons (pos : Nat) (p : Piece) (ps : List Piece) (stop : Nat) :
      PieceAt src pos p →
      PiecesFrom src (pos + p.chars.length) ps stop →
      PiecesFrom src pos (p :: ps) stop

/-- Invariant of the `scan_tokens` loop: the cursor is in bounds, the line
counter is one more than the number of newlines consumed so far, and the
consumed region decomposes into well-formed pieces whose emitted tokens
and recorded diagnostics are exactly the scanner's vectors, in order. -/
def ScanInv (src : List Char) (s : Scanner) : Prop :=
  s.source = src ∧ s.current ≤ src.length ∧
  s.line = 1 + (src.take s.current).count '\n' ∧
  ∃ ps : List Piece, PiecesFrom src 0 ps s.current ∧
    s.tokens = ps.filterMap Piece.tokenOf ∧
    s.errors = ps.filterMap Piece.errorOf

/-! ### Elementary slice and `takeWhile` lemmas -/

theorem sliceCh_eq_take_drop (src : List Char) (a b : Nat) :
    sliceCh src a b = (src.drop a).take (b - a) := by
  unfold sliceCh
  rw [List.drop_take]

theorem sliceCh_self (src : List Char) (a : Nat) : sliceCh src a a = [] := by
  rw [sliceCh_eq_take_drop]
  simp

theorem sliceCh_add (src : List Char) (a k : Nat) :
    sliceCh src a (a + k) = (src.drop a).take k := by
  rw [sliceCh_eq_take_drop]
  simp

theorem takeWhile_eq_take (p : Char → Bool) :
    ∀ l : List Char, l.takeWhile p = l.take (l.takeWhile p).length := by
  intro l
  induction l with
  | nil => rfl
  | cons c cs ih =>
    by_cases h : p c
    · rw [List.takeWhile_cons_of_pos h, List.length_cons, List.take_succ_cons]
      exact congrArg (c :: ·) ih
    · rw [List.takeWhile_cons_of_neg h]
      rfl

theorem takeWhile_drop_slice (p : Char → Bool) (src : List Char) (a : Nat) :
    sliceCh src a (a + ((src.drop a).takeWhile p).length) =
      (src.drop a).takeWhile p := by
  rw [sliceCh_add]
  exact (takeWhile_eq_take p (src.drop a)).symm

theorem takeWhile_len_le (p : Char → Bool) :
    ∀ l : List Char, (l.takeWhile p).length ≤ l.length := by
  intro l
  induction l with
  | nil => exact Nat.le_refl 0
  | cons c cs ih =>
    by_cases h : p c
    · rw [List.takeWhile_cons_of_pos h]
      simpa using ih
    · rw [List.takeWhile_cons_of_neg h]
      simp

theorem takeWhile_stop (p : Char → Bool) :
    ∀ l : List Char, (l.takeWhile p).length < l.length →
      p (l.getD (l.takeWhile p).length '\x00') = false := by
  intro l
  induction l with
  | nil => intro h; simp at h
  | cons c cs ih =>
    by_cases h : p c
    · rw [List.takeWhile_cons_of_pos h]
      intro hlt
      simpa using ih (by simpa using hlt)
    · rw [List.takeWhile_cons_of_neg h]
      intro _
      simpa using h

theorem takeWhile_mem (p : Char → Bool) (l : List Char) :
    ∀ c ∈ l.takeWhile p, p c = true := by
  induction l with
  | nil => intro c hc; simp at hc
  | cons d ds ih =>
    by_cases h : p d
    · rw [List.takeWhile_cons_of_pos h]
      intro c hc
      rcases List.mem_cons.1 hc with rfl | hc
      · exact h
      · exact ih c hc
    · rw [List.takeWhile_cons_of_neg h]
      intro c hc
      simp at hc

theorem sliceCh_append (src : List Char) (a b c : Nat) (hab : a ≤ b)
    (hbc : b ≤ c) :
    sliceCh src a c = sliceCh src a b ++ sliceCh src b c := by
  rw [sliceCh_eq_take_drop, sliceCh_eq_take_drop, sliceCh_eq_take_drop]
  have h1 : c - a = (b - a) + (c - b) := by omega
  rw [h1, List.take_add]
  congr 1
  rw [List.drop_drop]
  have h2 : a + (b - a) = b := by omega
  rw [h2]

theorem sliceCh_cons (src : List Char) (a b : Nat) (ha : a < src.length)
    (hab : a < b) :
    sliceCh src a b = src.getD a '\x00' :: sliceCh src (a + 1) b := by
  rw [sliceCh_eq_take_drop, sliceCh_eq_take_drop]
  have h2 : src.drop a = src.getD a '\x00' :: src.drop (a + 1) := by
    rw [List.getD_eq_getElem src '\x00' ha]
    exact List.drop_eq_getElem_cons ha
  rw [h2]
  have h3 : b - a = (b - (a + 1)) + 1 := by omega
  rw [h3, List.take_succ_cons]

theorem take_eq_take_append_slice (src : List Char) (a b : Nat) (hab : a ≤ b) :
    src.take b = src.take a ++ sliceCh src a b := by
  have h := List.take_append_drop a (src.take b)
  rw [List.take_take a b src, Nat.min_eq_left hab] at h
  unfold sliceCh
  exact h.symm

theorem count_take_split (src : List Char) (a b : Nat) (hab : a ≤ b) :
    (src.take b).count '\n' =
      (src.take a).count '\n' + (sliceCh src a b).count '\n' := by
  rw [take_eq_take_append_slice src a b hab, List.count_append]

/-! ### Lemmas about piece chains -/

theorem pieceAt_chars {src : List Char} {pos : Nat} {p : Piece}
    (h : PieceAt src pos p) :
    p.chars = sliceCh src pos (pos + p.chars.length) := by
  cases p with
  | tok t =>
    obtain ⟨h1, h2, _, _, h5, _, _, _⟩ := h
    show t.lexeme.data = sliceCh src pos (pos + t.lexeme.data.length)
    rw [← h2, ← h1]
    exact h5
  | ws c =>
    obtain ⟨_, h2, _⟩ := h
    simpa [Piece.chars] using h2.symm
  | nl =>
    obtain ⟨h1, _⟩ := h
    simpa [Piece.chars] using h1.symm
  | comment cs => exact h.1
  | bad c line =>
    obtain ⟨h1, _, _⟩ := h
    simpa [Piece.chars] using h1.symm

theorem pieceAt_end_le {src : List Char} {pos : Nat} {p : Piece}
    (h : PieceAt src pos p) : pos + p.chars.length ≤ src.length := by
  cases p with
  | tok t =>
    obtain ⟨h1, h2, h3, _, _, _, _, _⟩ := h
    show pos + t.lexeme.data.length ≤ src.length
    rw [← h2]
    exact h3
  | ws c =>
    obtain ⟨_, _, h3⟩ := h
    simpa [Piece.chars] using h3
  | nl =>
    obtain ⟨_, h2⟩ := h
    simpa [Piece.chars] using h2
  | comment cs => exact h.2.1
  | bad c line =>
    obtain ⟨_, h2, _⟩ := h
    simpa [Piece.chars] using h2

theorem piecesFrom_le {src : List Char} :
    ∀ {a : Nat} {ps : List Piece} {b : Nat}, PiecesFrom src a ps b → a ≤ b := by
  intro a ps b h
  induction h with
  | nil pos => exact Nat.le_refl pos
  | cons pos p ps stop hp hrest ih => exact Nat.le_trans (Nat.le_add_right _ _) ih

theorem piecesFrom_append {src : List Char} {a b : Nat} {ps : List Piece}
    (h : PiecesFrom src a ps b) {p : Piece} (hp : PieceAt src b p) :
    PiecesFrom src a (ps ++ [p]) (b + p.chars.length) := by
  induction h with
  | nil pos => exact PiecesFrom.cons pos p [] _ hp (PiecesFrom.nil _)
  | cons pos q qs stop hq hrest ih => exact PiecesFrom.cons pos q _ _ hq (ih hp)

theorem piecesFrom_flat {src : List Char} :
    ∀ {a : Nat} {ps : List Piece} {b : Nat}, PiecesFrom src a ps b →
      (ps.map Piece.chars).flatten = sliceCh src a b := by
  intro a ps b h
  induction h with
  | nil pos => simp [sliceCh_self]
  | cons pos p ps stop hp hrest ih =>
    have hle := piecesFrom_le hrest
    rw [List.map_cons, List.flatten_cons, ih]
    have h2 : p.chars ++ sliceCh src (pos + p.chars.length) stop =
        sliceCh src pos (pos + p.chars.length) ++
          sliceCh src (pos + p.chars.length) stop :=
      congrArg (fun x => x ++ sliceCh src (pos + p.chars.length) stop)
        (pieceAt_chars hp)
    rw [h2]
    exact (sliceCh_append src pos (pos + p.chars.length) stop
      (Nat.le_add_right pos _) hle).symm

theorem piecesFrom_token_mem {src : List Char} :
    ∀ {a : Nat} {ps : List Piece} {b : Nat}, PiecesFrom src a ps b →
      ∀ t ∈ ps.filterMap Piece.tokenOf, ∃ pos, PieceAt src pos (Piece.tok t) := by
  intro a ps b h
  induction h with
  | nil pos => intro t ht; simp at ht
  | cons pos p ps stop hp hrest ih =>
    intro t ht
    cases p with
    | tok u =>
      rw [List.filterMap_cons] at ht
      simp only [Piece.tokenOf] at ht
      rcases List.mem_cons.1 ht with rfl | ht2
      · exact ⟨pos, hp⟩
      · exact ih t ht2
    | ws c =>
      rw [List.filterMap_cons] at ht
      exact ih t ht
    | nl =>
      rw [List.filterMap_cons] at ht
      exact ih t ht
    | comment cs =>
      rw [List.filterMap_cons] at ht
      exact ih t ht
    | bad c line =>
      rw [List.filterMap_cons] at ht
      exact ih t ht

theorem piecesFrom_no_eof {src : List Char} {a : Nat} {ps : List Piece}
    {b : Nat} (h : PiecesFrom src a ps b) :
    ∀ t ∈ ps.filterMap Piece.tokenOf, t.token_type ≠ TokenType.EOF := by
  intro t ht
  obtain ⟨pos, hp⟩ := piecesFrom_token_mem h t ht
  exact hp.2.2.2.2.2.1

/-! ### Character classification and keyword table lemmas -/

theorem rustIsAlphabetic_ranges {c : Char} (h : rustIsAlphabetic c = true) :
    (65 ≤ c.toNat ∧ c.toNat ≤ 90) ∨ (97 ≤ c.toNat ∧ c.toNat ≤ 122) ∨
      192 ≤ c.toNat := by
  simp only [rustIsAlphabetic, decide_eq_true_eq] at h
  omega

theorem isDigit_toNat {c : Char} (h : c.isDigit = true) :
    48 ≤ c.toNat ∧ c.toNat ≤ 57 := by
  simp [Char.isDigit] at h
  exact h

/-- Core's ASCII letter test `Char.isAlpha`, written as explicit
code-point ranges. -/
theorem char_isAlpha_ranges (c : Char) :
    c.isAlpha = (decide (65 ≤ c.toNat ∧ c.toNat ≤ 90) ||
      decide (97 ≤ c.toNat ∧ c.toNat ≤ 122)) := by
  rw [Bool.eq_iff_iff]
  simp only [Char.isAlpha, Char.isUpper, Char.isLower, Bool.or_eq_true,
    Bool.and_eq_true, decide_eq_true_eq, ge_iff_le]
  exact Iff.rfl

/-- Below code point 128 the model `rustIsAlphabetic` agrees exactly with
the ASCII letter test — which is exactly what Rust's `char::is_alphabetic`
returns on ASCII. -/
theorem rustIsAlphabetic_ascii (c : Char) (h : c.toNat < 128) :
    rustIsAlphabetic c = c.isAlpha := by
  rw [char_isAlpha_ranges, Bool.eq_iff_iff]
  simp only [rustIsAlphabetic, Bool.or_eq_true, decide_eq_true_eq]
  omega

/-- Below code point 128 the model `rustIsAlphanumeric` agrees exactly
with the ASCII letter-or-digit test — which is exactly what Rust's
`char::is_alphanumeric` returns on ASCII. -/
theorem rustIsAlphanumeric_ascii (c : Char) (h : c.toNat < 128) :
    rustIsAlphanumeric c = (c.isAlpha || c.isDigit) := by
  unfold rustIsAlphanumeric
  rw [rustIsAlphabetic_ascii c h]

/-- `takeWhile` only tests members, so predicates that agree on the
list's members take the same prefix. -/
theorem takeWhile_pred_congr (p q : Char → Bool) :
    ∀ l : List Char, (∀ a ∈ l, p a = q a) → l.takeWhile p = l.takeWhile q := by
  intro l
  induction l with
  | nil => intro _; rfl
  | cons a l ih =>
    intro h
    rw [List.takeWhile_cons, List.takeWhile_cons, h a (List.mem_cons_self a l),
      ih (fun x hx => h x (List.mem_cons_of_mem a hx))]

/-- Every character the dispatch of `scan_token` tests explicitly, together
with the digit class, is rejected by `is_alpha` — except the letter `t`,
which the whitespace arm captures and which is excluded by hypothesis. -/
theorem is_alpha_not_dispatch {c : Char} (h : Scanner.is_alpha c = true)
    (ht : c ≠ 't') :
    c ≠ '(' ∧ c ≠ ')' ∧ c ≠ '\x7b' ∧ c ≠ '\x7d' ∧ c ≠ ',' ∧ c ≠ '.' ∧
    c ≠ '-' ∧ c ≠ '+' ∧ c ≠ ';' ∧ c ≠ '*' ∧ c ≠ '!' ∧ c ≠ '=' ∧ c ≠ '<' ∧
    c ≠ '>' ∧ c ≠ '/' ∧ ¬(c = ' ' ∨ c = '\r' ∨ c = 't') ∧ c ≠ '\n' ∧
    c ≠ '"' ∧ c.isDigit = false := by
  unfold Scanner.is_alpha at h
  simp only [Bool.or_eq_true] at h
  rcases h with h | h
  · have hr := rustIsAlphabetic_ranges h
    have hdig : c.isDigit = false := by
      cases hdg : c.isDigit with
      | false => rfl
      | true => exact absurd (isDigit_toNat hdg) (by omega)
    refine ⟨fun he => absurd (he ▸ hr) (by decide),
      fun he => absurd (he ▸ hr) (by decide),
      fun he => absurd (he ▸ hr) (by decide),
      fun he => absurd (he ▸ hr) (by decide),
      fun he => absurd (he ▸ hr) (by decide),
      fun he => absurd (he ▸ hr) (by decide),
      fun he => absurd (he ▸ hr) (by decide),
      fun he => absurd (he ▸ hr) (by decide),
      fun he => absurd (he ▸ hr) (by decide),
      fun he => absurd (he ▸ hr) (by decide),
      fun he => absurd (he ▸ hr) (by decide),
      fun he => absurd (he ▸ hr) (by decide),
      fun he => absurd (he ▸ hr) (by decide),
      fun he => absurd (he ▸ hr) (by decide),
      fun he => absurd (he ▸ hr) (by decide), ?_,
      fun he => absurd (he ▸ hr) (by decide),
      fun he => absurd (he ▸ hr) (by decide), hdig⟩
    rintro (he | he | he)
    · exact absurd (he ▸ hr) (by decide)
    · exact absurd (he ▸ hr) (by decide)
    · exact ht he
  · have hc : c = '_' := by simpa using h
    subst hc
    decide

theorem keywords_single (c : Char) : keywords (String.mk [c]) = none := by
  unfold keywords
  rw [if_neg (fun he => absurd (congrArg (fun s => s.data.length) he : (1 : Nat) = 3) (by decide)),
      if_neg (fun he => absurd (congrArg (fun s => s.data.length) he : (1 : Nat) = 5) (by decide)),
      if_neg (fun he => absurd (congrArg (fun s => s.data.length) he : (1 : Nat) = 4) (by decide)),
      if_neg (fun he => absurd (congrArg (fun s => s.data.length) he : (1 : Nat) = 5) (by decide)),
      if_neg (fun he => absurd (congrArg (fun s => s.data.length) he : (1 : Nat) = 3) (by decide)),
      if_neg (fun he => absurd (congrArg (fun s => s.data.length) he : (1 : Nat) = 3) (by decide)),
      if_neg (fun he => absurd (congrArg (fun s => s.data.length) he : (1 : Nat) = 2) (by decide)),
      if_neg (fun he => absurd (congrArg (fun s => s.data.length) he : (1 : Nat) = 3) (by decide)),
      if_neg (fun he => absurd (congrArg (fun s => s.data.length) he : (1 : Nat) = 2) (by decide)),
      if_neg (fun he => absurd (congrArg (fun s => s.data.length) he : (1 : Nat) = 5) (by decide)),
      if_neg (fun he => absurd (congrArg (fun s => s.data.length) he : (1 : Nat) = 6) (by decide)),
      if_neg (fun he => absurd (congrArg (fun s => s.data.length) he : (1 : Nat) = 5) (by decide)),
      if_neg (fun he => absurd (congrArg (fun s => s.data.length) he : (1 : Nat) = 4) (by decide)),
      if_neg (fun he => absurd (congrArg (fun s => s.data.length) he : (1 : Nat) = 4) (by decide)),
      if_neg (fun he => absurd (congrArg (fun s => s.data.length) he : (1 : Nat) = 3) (by decide)),
      if_neg (fun he => absurd (congrArg (fun s => s.data.length) he : (1 : Nat) = 5) (by decide))]

theorem keywords_pair_a (c : Char) : keywords (String.mk ['a', c]) = none := by
  unfold keywords
  rw [if_neg (fun he => absurd (congrArg (fun s => s.data.length) he : (2 : Nat) = 3) (by decide)),
      if_neg (fun he => absurd (congrArg (fun s => s.data.length) he : (2 : Nat) = 5) (by decide)),
      if_neg (fun he => absurd (congrArg (fun s => s.data.length) he : (2 : Nat) = 4) (by decide)),
      if_neg (fun he => absurd (congrArg (fun s => s.data.length) he : (2 : Nat) = 5) (by decide)),
      if_neg (fun he => absurd (congrArg (fun s => s.data.length) he : (2 : Nat) = 3) (by decide)),
      if_neg (fun he => absurd (congrArg (fun s => s.data.length) he : (2 : Nat) = 3) (by decide)),
      if_neg (fun he => absurd (congrArg (fun s => s.data.head?) he : some 'a' = some 'i') (by decide)),
      if_neg (fun he => absurd (congrArg (fun s => s.data.length) he : (2 : Nat) = 3) (by decide)),
      if_neg (fun he => absurd (congrArg (fun s => s.data.head?) he : some 'a' = some 'o') (by decide)),
      if_neg (fun he => absurd (congrArg (fun s => s.data.length) he : (2 : Nat) = 5) (by decide)),
      if_neg (fun he => absurd (congrArg (fun s => s.data.length) he : (2 : Nat) = 6) (by decide)),
      if_neg (fun he => absurd (congrArg (fun s => s.data.length) he : (2 : Nat) = 5) (by decide)),
      if_neg (fun he => absurd (congrArg (fun s => s.data.length) he : (2 : Nat) = 4) (by decide)),
      if_neg (fun he => absurd (congrArg (fun s => s.data.length) he : (2 : Nat) = 4) (by decide)),
      if_neg (fun he => absurd (congrArg (fun s => s.data.length) he : (2 : Nat) = 3) (by decide)),
      if_neg (fun he => absurd (congrArg (fun s => s.data.length) he : (2 : Nat) = 5) (by decide))]

/-! ### Lemmas about `parseF64` -/

theorem takeWhile_append_stop (p : Char → Bool) :
    ∀ {l : List Char}, (∀ c ∈ l, p c = true) → ∀ {c : Char}, p c = false →
      ∀ (r : List Char), (l ++ c :: r).takeWhile p = l := by
  intro l
  induction l with
  | nil =>
    intro _ c hc r
    show (c :: r).takeWhile p = []
    exact List.takeWhile_cons_of_neg (by simp [hc])
  | cons d ds ih =>
    intro hl c hc r
    have hd : p d = true := hl d (List.mem_cons_self d ds)
    rw [List.cons_append, List.takeWhile_cons_of_pos hd,
      ih (fun x hx => hl x (List.mem_cons_of_mem d hx)) hc r]

theorem parseF64_int {l : List Char} (hne : l ≠ [])
    (hd : ∀ c ∈ l, c.isDigit = true) :
    parseF64 (String.mk l) = some (digitsVal l : ℚ) := by
  have hl : (String.mk l).data = l := rfl
  simp only [parseF64, hl, List.takeWhile_eq_self_iff.mpr hd, List.drop_length]
  rw [if_neg (fun h0 => hne (List.length_eq_zero.mp h0))]

theorem parseF64_frac {l f : List Char} (hne : l ≠ [])
    (hd : ∀ c ∈ l, c.isDigit = true) (hfne : f ≠ [])
    (hfd : ∀ c ∈ f, c.isDigit = true) :
    parseF64 (String.mk (l ++ '.' :: f)) =
      some ((digitsVal l : ℚ) + (digitsVal f : ℚ) / (10 : ℚ) ^ f.length) := by
  have hl : (String.mk (l ++ '.' :: f)).data = l ++ '.' :: f := rfl
  have ht := takeWhile_append_stop Char.isDigit hd
    (by decide : Char.isDigit '.' = false) f
  have hdrop : (l ++ '.' :: f).drop l.length = '.' :: f := List.drop_left l ('.' :: f)
  simp only [parseF64, hl, ht, hdrop]
  rw [if_neg (fun h0 => hne (List.length_eq_zero.mp h0))]
  rw [if_pos ⟨fun h0 => hfne (List.length_eq_zero.mp h0), List.all_eq_true.mpr hfd⟩]

/-! ### Behaviour of the scanning routines -/

theorem identifier_spec (src : List Char) (s : Scanner) (pos E : Nat)
    (hsrc : s.source = src) (hst : s.start = pos) (hcur : s.current = pos + 1)
    (hE : E = pos + 1 + ((src.drop (pos + 1)).takeWhile rustIsAlphanumeric).length) :
    Scanner.identifier s =
      { s with
        current := E,
        tokens := s.tokens ++
          [{ token_type :=
               (keywords (String.mk (sliceCh src pos E))).getD TokenType.Identifier,
             lexeme := String.mk (sliceCh src pos E),
             literal := (keywords (String.mk (sliceCh src pos E))).map
               (fun _ => Literal.Identifier (String.mk (sliceCh src pos E))),
             line := s.line, startPos := pos, endPos := E }] } := by
  unfold Scanner.identifier
  simp only [hsrc, hst, hcur, ← hE]
  cases hk : keywords (String.mk (sliceCh src pos E)) with
  | none =>
    simp only [Scanner.add_token, Scanner.add_token_literal, hsrc, hst, hcur, ← hE, hk]
    simp
  | some kw =>
    simp only [Scanner.add_token_literal, hsrc, hst, hcur, ← hE, hk]
    simp

theorem drop_eq_getD_cons {src : List Char} {n : Nat} (h : n < src.length) :
    src.drop n = src.getD n '\x00' :: src.drop (n + 1) := by
  rw [List.getD_eq_getElem src '\x00' h]
  exact List.drop_eq_getElem_cons h

theorem peek_record (s : Scanner) (src : List Char) (X : Nat)
    (hsrc : s.source = src) :
    Scanner.peek { s with current := X } =
      if src.length ≤ X then '\x00' else src.getD X '\x00' := by
  simp [Scanner.peek, Scanner.is_at_end, hsrc]

theorem peek_next_record (s : Scanner) (src : List Char) (X : Nat)
    (hsrc : s.source = src) :
    Scanner.peek_next { s with current := X } =
      if src.length ≤ X + 1 then '\x00' else src.getD (X + 1) '\x00' := by
  simp [Scanner.peek_next, hsrc]

theorem takeWhile_head_cons (p : Char → Bool) {src : List Char} {n : Nat}
    (hn : n < src.length) (hp : p (src.getD n '\x00') = true) :
    (src.drop n).takeWhile p =
      src.getD n '\x00' :: (src.drop (n + 1)).takeWhile p := by
  rw [drop_eq_getD_cons hn, List.takeWhile_cons_of_pos hp]


theorem sliceCh_length (src : List Char) (a b : Nat) (hab : a ≤ b)
    (hb : b ≤ src.length) : (sliceCh src a b).length = b - a := by
  unfold sliceCh
  rw [List.length_drop, List.length_take]
  omega

theorem ne_nl_of_digit {c : Char} (h : c.isDigit = true) : c ≠ '\n' :=
  fun he => by rw [he] at h; exact absurd h (by decide)

theorem ne_nl_of_alnum {c : Char} (h : rustIsAlphanumeric c = true) : c ≠ '\n' :=
  fun he => by rw [he] at h; exact absurd h (by decide)

theorem count_slice_single (src : List Char) (cur : Nat) (hlt : cur < src.length)
    (hnl : src.getD cur '\x00' ≠ '\n') :
    (sliceCh src cur (cur + 1)).count '\n' = 0 := by
  rw [sliceCh_cons src cur (cur + 1) hlt (by omega), sliceCh_self]
  simp [List.count_cons]
  simpa [List.getD] using hnl

theorem number_spec (src : List Char) (s : Scanner) (pos e1 E : Nat)
    (hsrc : s.source = src) (hst : s.start = pos) (hcur : s.current = pos + 1)
    (hpos : pos < src.length) (hd : (src.getD pos '\x00').isDigit = true)
    (he1 : e1 = pos + 1 + ((src.drop (pos + 1)).takeWhile Char.isDigit).length)
    (hE : E = if e1 < src.length ∧ src.getD e1 '\x00' = '.' ∧
          e1 + 1 < src.length ∧ (src.getD (e1 + 1) '\x00').isDigit = true
        then e1 + 1 + ((src.drop (e1 + 1)).takeWhile Char.isDigit).length
        else e1) :
    ∃ q : ℚ, parseF64 (String.mk (sliceCh src pos E)) = some q ∧
      (sliceCh src pos E).count '\n' = 0 ∧
      Scanner.number s = some { s with
        current := E,
        tokens := s.tokens ++
          [{ token_type := TokenType.Number,
             lexeme := String.mk (sliceCh src pos E),
             literal := some (Literal.Number q),
             line := s.line, startPos := pos, endPos := E }] } := by
  have hd1 : ∀ c ∈ (src.drop (pos + 1)).takeWhile Char.isDigit, c.isDigit = true :=
    takeWhile_mem Char.isDigit (src.drop (pos + 1))
  have he1le : pos + 1 ≤ e1 := by omega
  have hs1 : sliceCh src (pos + 1) e1 =
      (src.drop (pos + 1)).takeWhile Char.isDigit := by
    rw [he1]
    exact takeWhile_drop_slice Char.isDigit src (pos + 1)
  obtain ⟨src0, toks, st, cur, ln, errs⟩ := s
  simp only [Scanner.source] at hsrc
  simp only [Scanner.start] at hst
  simp only [Scanner.current] at hcur
  simp only [Scanner.tokens, Scanner.line, Scanner.errors]
  subst src0 st cur
  by_cases hfr : (e1 < src.length ∧ src.getD e1 '\x00' = '.' ∧
      e1 + 1 < src.length ∧ (src.getD (e1 + 1) '\x00').isDigit = true)
  · rw [if_pos hfr] at hE
    obtain ⟨hb1, hdot, hb2, hd2⟩ := hfr
    have hd2cons : (src.drop (e1 + 1)).takeWhile Char.isDigit =
        src.getD (e1 + 1) '\x00' :: (src.drop (e1 + 2)).takeWhile Char.isDigit :=
      takeWhile_head_cons Char.isDigit hb2 hd2
    have hsl : sliceCh src pos E = src.getD pos '\x00' :: sliceCh src (pos + 1) E :=
      sliceCh_cons src pos E hpos (by omega)
    have hsplit1 : sliceCh src (pos + 1) E =
        sliceCh src (pos + 1) e1 ++ sliceCh src e1 E :=
      sliceCh_append src (pos + 1) e1 E he1le (by omega)
    have hsplit2 : sliceCh src e1 E = sliceCh src e1 (e1 + 1) ++ sliceCh src (e1 + 1) E :=
      sliceCh_append src e1 (e1 + 1) E (by omega) (by omega)
    have hdotslice : sliceCh src e1 (e1 + 1) = ['.'] := by
      rw [sliceCh_cons src e1 (e1 + 1) hb1 (by omega), sliceCh_self, hdot]
    have hs2 : sliceCh src (e1 + 1) E = (src.drop (e1 + 1)).takeWhile Char.isDigit := by
      rw [hE]
      exact takeWhile_drop_slice Char.isDigit src (e1 + 1)
    have hval : sliceCh src pos E =
        (src.getD pos '\x00' :: sliceCh src (pos + 1) e1) ++
          '.' :: (src.drop (e1 + 1)).takeWhile Char.isDigit := by
      rw [hsl, hsplit1, hsplit2, hdotslice, hs2]
      simp
    have hp : parseF64 (String.mk (sliceCh src pos E)) =
        some ((digitsVal (src.getD pos '\x00' :: sliceCh src (pos + 1) e1) : ℚ) +
          (digitsVal ((src.drop (e1 + 1)).takeWhile Char.isDigit) : ℚ) /
            (10 : ℚ) ^ ((src.drop (e1 + 1)).takeWhile Char.isDigit).length) := by
      rw [hval]
      refine parseF64_frac (by simp) ?_ (by rw [hd2cons]; simp) ?_
      · intro c hc
        rcases List.mem_cons.1 hc with rfl | hc2
        · exact hd
        · rw [hs1] at hc2
          exact hd1 c hc2
      · exact takeWhile_mem Char.isDigit (src.drop (e1 + 1))
    have hcz : (sliceCh src pos E).count '\n' = 0 := by
      rw [hval, List.count_eq_zero]
      intro hmem
      rcases List.mem_append.1 hmem with hm1 | hm2
      · rcases List.mem_cons.1 hm1 with he | hm1b
        · exact ne_nl_of_digit hd he.symm
        · rw [hs1] at hm1b
          exact ne_nl_of_digit (hd1 _ hm1b) rfl
      · rcases List.mem_cons.1 hm2 with he | hm2b
        · exact absurd he (by decide)
        · exact ne_nl_of_digit (takeWhile_mem Char.isDigit (src.drop (e1 + 1)) _ hm2b) rfl
    refine ⟨_, hp, hcz, ?_⟩
    have hpeek : Scanner.peek
        { source := src, tokens := toks, start := pos,
          current := e1, line := ln, errors := errs } = '.' := by
      simp [Scanner.peek, Scanner.is_at_end, show ¬(src.length ≤ e1) from by omega]
      simpa [List.getD] using hdot
    have hpnext : (Scanner.peek_next
        { source := src, tokens := toks, start := pos,
          current := e1, line := ln, errors := errs }).isDigit = true := by
      simp [Scanner.peek_next, show ¬(src.length ≤ e1 + 1) from by omega]
      simpa [List.getD] using hd2
    unfold Scanner.number
    simp only [← he1]
    rw [if_pos ⟨hpeek, hpnext⟩]
    simp only [Scanner.add_token_literal, ← hE]
    rw [hp]
  · rw [if_neg hfr] at hE
    subst E
    have hval : sliceCh src pos e1 = src.getD pos '\x00' :: sliceCh src (pos + 1) e1 :=
      sliceCh_cons src pos e1 hpos (by omega)
    have hp : parseF64 (String.mk (sliceCh src pos e1)) =
        some ((digitsVal (src.getD pos '\x00' :: sliceCh src (pos + 1) e1) : ℚ)) := by
      rw [hval]
      refine parseF64_int (by simp) ?_
      intro c hc
      rcases List.mem_cons.1 hc with rfl | hc2
      · exact hd
      · rw [hs1] at hc2
        exact hd1 c hc2
    have hcz : (sliceCh src pos e1).count '\n' = 0 := by
      rw [hval, List.count_eq_zero]
      intro hmem
      rcases List.mem_cons.1 hmem with he | hmb
      · exact ne_nl_of_digit hd he.symm
      · rw [hs1] at hmb
        exact ne_nl_of_digit (hd1 _ hmb) rfl
    refine ⟨_, hp, hcz, ?_⟩
    have hneg : ¬(Scanner.peek
        { source := src, tokens := toks, start := pos,
          current := e1, line := ln, errors := errs } = '.' ∧
        (Scanner.peek_next
        { source := src, tokens := toks, start := pos,
          current := e1, line := ln, errors := errs }).isDigit = true) := by
      rintro ⟨hpk, hpn⟩
      simp only [Scanner.peek, Scanner.is_at_end] at hpk
      simp only [Scanner.peek_next] at hpn
      by_cases hb1 : src.length ≤ e1
      · simp [hb1] at hpk
      · simp only [hb1] at hpk
        by_cases hb2 : src.length ≤ e1 + 1
        · simp [hb2] at hpn
        · simp only [hb2] at hpn
          refine hfr ⟨by omega, ?_, by omega, ?_⟩
          · simpa [List.getD, hb1] using hpk
          · simpa [List.getD, hb2] using hpn
    unfold Scanner.number
    simp only [← he1]
    rw [if_neg hneg]
    simp only [Scanner.add_token_literal]
    rw [hp]

theorem string_spec (src : List Char) (s : Scanner) (pos bl bn : Nat)
    (hsrc : s.source = src) (hst : s.start = pos) (hcur : s.current = pos + 1)
    (hbl : bl = ((src.drop (pos + 1)).takeWhile (fun ch => ch != '"')).length)
    (hbn : bn = ((src.drop (pos + 1)).takeWhile (fun ch => ch != '"')).count '\n')
    (hclose : pos + 1 + bl < src.length) :
    Scanner.string s = some { s with
      current := pos + 1 + bl + 1,
      line := s.line + bn,
      tokens := s.tokens ++
        [{ token_type := TokenType.String,
           lexeme := String.mk (sliceCh src pos (pos + 1 + bl + 1)),
           literal := some (Literal.String
             (String.mk (sliceCh src (pos + 1) (pos + 1 + bl)))),
           line := s.line + bn,
           startPos := pos, endPos := pos + 1 + bl + 1 }] } := by
  obtain ⟨src0, toks, st, cur, ln, errs⟩ := s
  simp only [Scanner.source] at hsrc
  simp only [Scanner.start] at hst
  simp only [Scanner.current] at hcur
  simp only [Scanner.tokens, Scanner.line, Scanner.errors]
  subst src0 st cur
  unfold Scanner.string
  simp only [← hbl, ← hbn]
  unfold Scanner.advance
  simp only [List.getElem?_eq_getElem hclose]
  simp only [Scanner.add_token_literal, Nat.add_sub_cancel]

theorem string_spec_fail (src : List Char) (s : Scanner) (pos : Nat)
    (hsrc : s.source = src) (hcur : s.current = pos + 1)
    (hnoclose : src.length ≤
      pos + 1 + ((src.drop (pos + 1)).takeWhile (fun ch => ch != '"')).length) :
    Scanner.string s = none := by
  obtain ⟨src0, toks, st, cur, ln, errs⟩ := s
  simp only [Scanner.source] at hsrc
  simp only [Scanner.current] at hcur
  subst src0 cur
  unfold Scanner.string
  unfold Scanner.advance
  simp only [List.getElem?_eq_none hnoclose]

theorem keywords_getD_ne_eof (str : String) :
    (keywords str).getD TokenType.Identifier ≠ TokenType.EOF := by
  unfold keywords
  by_cases h0 : str = "and"
  · rw [if_pos h0]; decide
  · rw [if_neg h0]
    by_cases h1 : str = "class"
    · rw [if_pos h1]; decide
    · rw [if_neg h1]
      by_cases h2 : str = "else"
      · rw [if_pos h2]; decide
      · rw [if_neg h2]
        by_cases h3 : str = "false"
        · rw [if_pos h3]; decide
        · rw [if_neg h3]
          by_cases h4 : str = "for"
          · rw [if_pos h4]; decide
          · rw [if_neg h4]
            by_cases h5 : str = "fun"
            · rw [if_pos h5]; decide
            · rw [if_neg h5]
              by_cases h6 : str = "if"
              · rw [if_pos h6]; decide
              · rw [if_neg h6]
                by_cases h7 : str = "nil"
                · rw [if_pos h7]; decide
                · rw [if_neg h7]
                  by_cases h8 : str = "or"
                  · rw [if_pos h8]; decide
                  · rw [if_neg h8]
                    by_cases h9 : str = "print"
                    · rw [if_pos h9]; decide
                    · rw [if_neg h9]
                      by_cases h10 : str = "return"
                      · rw [if_pos h10]; decide
                      · rw [if_neg h10]
                        by_cases h11 : str = "super"
                        · rw [if_pos h11]; decide
                        · rw [if_neg h11]
                          by_cases h12 : str = "this"
                          · rw [if_pos h12]; decide
                          · rw [if_neg h12]
                            by_cases h13 : str = "true"
                            · rw [if_pos h13]; decide
                            · rw [if_neg h13]
                              by_cases h14 : str = "var"
                              · rw [if_pos h14]; decide
                              · rw [if_neg h14]
                                by_cases h15 : str = "while"
                                · rw [if_pos h15]; decide
                                · rw [if_neg h15]
                                  decide

/-- Package a freshly pushed non-`EOF`, non-newline token spanning
`[cur, E)` as a well-formed piece. -/
theorem piece_token_of_slice (src : List Char) (cur E ln : Nat)
    (tt : TokenType) (lit : Option Literal) (hne : tt ≠ TokenType.EOF)
    (hlt : cur < E) (hle : E ≤ src.length)
    (hcount : (sliceCh src cur E).count '\n' = 0) :
    ∃ p : Piece,
      p.chars = sliceCh src cur E ∧
      Piece.tokenOf p = some
        { token_type := tt,
          lexeme := String.mk (sliceCh src cur E), literal := lit,
          line := ln, startPos := cur, endPos := E } ∧
      Piece.errorOf p = none ∧
      p.chars.count '\n' = 0 ∧
      (ln = 1 + (src.take cur).count '\n' → PieceAt src cur p) := by
  have hlen : (sliceCh src cur E).length = E - cur :=
    sliceCh_length src cur E (by omega) hle
  refine ⟨Piece.tok
    { token_type := tt,
      lexeme := String.mk (sliceCh src cur E), literal := lit,
      line := ln, startPos := cur, endPos := E }, rfl, rfl, rfl, hcount, ?_⟩
  intro hln
  refine ⟨rfl, ?_, hle, hlt, rfl, hne, ?_, fun _ => hcount⟩
  · show E = cur + (sliceCh src cur E).length
    rw [hlen]
    omega
  · show ln = 1 + (src.take E).count '\n'
    rw [hln, count_take_split src cur E (by omega), hcount]
    omega

theorem getD_drop (src : List Char) (n m : Nat) :
    (src.drop n).getD m '\x00' = src.getD (n + m) '\x00' := by
  simp [List.getD, List.getElem?_drop]

/-- Package a freshly pushed string token spanning `[cur, E)` (whose lexeme
may contain newlines, counted by `bn`) as a well-formed piece. -/
theorem piece_token_string (src : List Char) (cur E ln bn : Nat)
    (lit : Option Literal) (hlt : cur < E) (hle : E ≤ src.length)
    (hbn : (sliceCh src cur E).count '\n' = bn) :
    ∃ p : Piece,
      p.chars = sliceCh src cur E ∧
      Piece.tokenOf p = some
        { token_type := TokenType.String,
          lexeme := String.mk (sliceCh src cur E), literal := lit,
          line := ln + bn, startPos := cur, endPos := E } ∧
      Piece.errorOf p = none ∧
      p.chars.count '\n' = bn ∧
      (ln = 1 + (src.take cur).count '\n' → PieceAt src cur p) := by
  have hlen : (sliceCh src cur E).length = E - cur :=
    sliceCh_length src cur E (by omega) hle
  refine ⟨Piece.tok
    { token_type := TokenType.String,
      lexeme := String.mk (sliceCh src cur E), literal := lit,
      line := ln + bn, startPos := cur, endPos := E }, rfl, rfl, rfl, hbn, ?_⟩
  intro hln
  refine ⟨rfl, ?_, hle, hlt, rfl,
    (by decide : TokenType.String ≠ TokenType.EOF), ?_,
    fun hne => absurd rfl hne⟩
  · show E = cur + (sliceCh src cur E).length
    rw [hlen]
    omega
  · show ln + bn = 1 + (src.take E).count '\n'
    rw [count_take_split src cur E (by omega), hbn, hln]
    omega

/-- One iteration of the scanning loop, started with `start = current` on an
in-bounds cursor: when `scan_token` succeeds it advances the cursor within
bounds, preserves `source` and `start`, and the consumed slice forms one
well-formed piece whose emitted token or recorded diagnostic is exactly what
got appended to the scanner's vectors. -/
theorem scan_token_step (src : List Char) (s s2 : Scanner)
    (hsrc : s.source = src) (hst : s.start = s.current)
    (hlt : s.current < src.length)
    (h : Scanner.scan_token s = some s2) :
    s2.source = src ∧ s2.start = s.start ∧ s.current < s2.current ∧
    s2.current ≤ src.length ∧
    ∃ p : Piece,
      p.chars = sliceCh src s.current s2.current ∧
      s2.tokens = s.tokens ++ (Piece.tokenOf p).toList ∧
      s2.errors = s.errors ++ (Piece.errorOf p).toList ∧
      s2.line = s.line + p.chars.count '\n' ∧
      (s.line = 1 + (src.take s.current).count '\n' → PieceAt src s.current p) := by
  obtain ⟨src0, toks, st, cur, ln, errs⟩ := s
  try simp only [Scanner.source] at hsrc
  try simp only [Scanner.start, Scanner.current] at hst
  try simp only [Scanner.current] at hlt
  try simp only [Scanner.start, Scanner.current, Scanner.tokens,
    Scanner.line, Scanner.errors]
  subst src0 st
  unfold Scanner.scan_token at h
  unfold Scanner.advance at h
  simp only [List.getElem?_eq_getElem hlt] at h
  rw [← List.getD_eq_getElem src '\x00' hlt] at h
  by_cases h1 : src.getD cur '\x00' = '('
  · rw [if_pos h1] at h
    simp only [Scanner.add_token, Scanner.add_token_literal] at h
    injection h with h
    subst h
    try simp only [Scanner.source, Scanner.start, Scanner.current, Scanner.tokens, Scanner.line, Scanner.errors]
    obtain ⟨p, pc, pt, pe, pcn, pW⟩ := piece_token_of_slice src cur (cur + 1) ln
      TokenType.LeftParen none (by decide) (by omega) (by omega)
      (count_slice_single src cur hlt (by rw [h1]; decide))
    refine ⟨by trivial, by trivial, by omega, by omega, p, pc, ?_, ?_, ?_, pW⟩
    · rw [pt]; rfl
    · rw [pe]; simp
    · rw [pcn]; omega
  · rw [if_neg h1] at h
    by_cases h2 : src.getD cur '\x00' = ')'
    · rw [if_pos h2] at h
      simp only [Scanner.add_token, Scanner.add_token_literal] at h
      injection h with h
      subst h
      try simp only [Scanner.source, Scanner.start, Scanner.current, Scanner.tokens, Scanner.line, Scanner.errors]
      obtain ⟨p, pc, pt, pe, pcn, pW⟩ := piece_token_of_slice src cur (cur + 1) ln
        TokenType.RightParen none (by decide) (by omega) (by omega)
        (count_slice_single src cur hlt (by rw [h2]; decide))
      refine ⟨by trivial, by trivial, by omega, by omega, p, pc, ?_, ?_, ?_, pW⟩
      · rw [pt]; rfl
      · rw [pe]; simp
      · rw [pcn]; omega
    · rw [if_neg h2] at h
      by_cases h3 : src.getD cur '\x00' = '\x7b'
      · rw [if_pos h3] at h
        simp only [Scanner.add_token, Scanner.add_token_literal] at h
        injection h with h
        subst h
        try simp only [Scanner.source, Scanner.start, Scanner.current, Scanner.tokens, Scanner.line, Scanner.errors]
        obtain ⟨p, pc, pt, pe, pcn, pW⟩ := piece_token_of_slice src cur (cur + 1) ln
          TokenType.LeftBrace none (by decide) (by omega) (by omega)
          (count_slice_single src cur hlt (by rw [h3]; decide))
        refine ⟨by trivial, by trivial, by omega, by omega, p, pc, ?_, ?_, ?_, pW⟩
        · rw [pt]; rfl
        · rw [pe]; simp
        · rw [pcn]; omega
      · rw [if_neg h3] at h
        by_cases h4 : src.getD cur '\x00' = '\x7d'
        · rw [if_pos h4] at h
          simp only [Scanner.add_token, Scanner.add_token_literal] at h
          injection h with h
          subst h
          try simp only [Scanner.source, Scanner.start, Scanner.current, Scanner.tokens, Scanner.line, Scanner.errors]
          obtain ⟨p, pc, pt, pe, pcn, pW⟩ := piece_token_of_slice src cur (cur + 1) ln
            TokenType.RightBrace none (by decide) (by omega) (by omega)
            (count_slice_single src cur hlt (by rw [h4]; decide))
          refine ⟨by trivial, by trivial, by omega, by omega, p, pc, ?_, ?_, ?_, pW⟩
          · rw [pt]; rfl
          · rw [pe]; simp
          · rw [pcn]; omega
        · rw [if_neg h4] at h
          by_cases h5 : src.getD cur '\x00' = ','
          · rw [if_pos h5] at h
            simp only [Scanner.add_token, Scanner.add_token_literal] at h
            injection h with h
            subst h
            try simp only [Scanner.source, Scanner.start, Scanner.current, Scanner.tokens, Scanner.line, Scanner.errors]
            obtain ⟨p, pc, pt, pe, pcn, pW⟩ := piece_token_of_slice src cur (cur + 1) ln
              TokenType.Comma none (by decide) (by omega) (by omega)
              (count_slice_single src cur hlt (by rw [h5]; decide))
            refine ⟨by trivial, by trivial, by omega, by omega, p, pc, ?_, ?_, ?_, pW⟩
            · rw [pt]; rfl
            · rw [pe]; simp
            · rw [pcn]; omega
          · rw [if_neg h5] at h
            by_cases h6 : src.getD cur '\x00' = '.'
            · rw [if_pos h6] at h
              simp only [Scanner.add_token, Scanner.add_token_literal] at h
              injection h with h
              subst h
              try simp only [Scanner.source, Scanner.start, Scanner.current, Scanner.tokens, Scanner.line, Scanner.errors]
              obtain ⟨p, pc, pt, pe, pcn, pW⟩ := piece_token_of_slice src cur (cur + 1) ln
                TokenType.Dot none (by decide) (by omega) (by omega)
                (count_slice_single src cur hlt (by rw [h6]; decide))
              refine ⟨by trivial, by trivial, by omega, by omega, p, pc, ?_, ?_, ?_, pW⟩
              · rw [pt]; rfl
              · rw [pe]; simp
              · rw [pcn]; omega
            · rw [if_neg h6] at h
              by_cases h7 : src.getD cur '\x00' = '-'
              · rw [if_pos h7] at h
                simp only [Scanner.add_token, Scanner.add_token_literal] at h
                injection h with h
                subst h
                try simp only [Scanner.source, Scanner.start, Scanner.current, Scanner.tokens, Scanner.line, Scanner.errors]
                obtain ⟨p, pc, pt, pe, pcn, pW⟩ := piece_token_of_slice src cur (cur + 1) ln
                  TokenType.Minus none (by decide) (by omega) (by omega)
                  (count_slice_single src cur hlt (by rw [h7]; decide))
                refine ⟨by trivial, by trivial, by omega, by omega, p, pc, ?_, ?_, ?_, pW⟩
                · rw [pt]; rfl
                · rw [pe]; simp
                · rw [pcn]; omega
              · rw [if_neg h7] at h
                by_cases h8 : src.getD cur '\x00' = '+'
                · rw [if_pos h8] at h
                  simp only [Scanner.add_token, Scanner.add_token_literal] at h
                  injection h with h
                  subst h
                  try simp only [Scanner.source, Scanner.start, Scanner.current, Scanner.tokens, Scanner.line, Scanner.errors]
                  obtain ⟨p, pc, pt, pe, pcn, pW⟩ := piece_token_of_slice src cur (cur + 1) ln
                    TokenType.Plus none (by decide) (by omega) (by omega)
                    (count_slice_single src cur hlt (by rw [h8]; decide))
                  refine ⟨by trivial, by trivial, by omega, by omega, p, pc, ?_, ?_, ?_, pW⟩
                  · rw [pt]; rfl
                  · rw [pe]; simp
                  · rw [pcn]; omega
                · rw [if_neg h8] at h
                  by_cases h9 : src.getD cur '\x00' = ';'
                  · rw [if_pos h9] at h
                    simp only [Scanner.add_token, Scanner.add_token_literal] at h
                    injection h with h
                    subst h
                    try simp only [Scanner.source, Scanner.start, Scanner.current, Scanner.tokens, Scanner.line, Scanner.errors]
                    obtain ⟨p, pc, pt, pe, pcn, pW⟩ := piece_token_of_slice src cur (cur + 1) ln
                      TokenType.SemiColon none (by decide) (by omega) (by omega)
                      (count_slice_single src cur hlt (by rw [h9]; decide))
                    refine ⟨by trivial, by trivial, by omega, by omega, p, pc, ?_, ?_, ?_, pW⟩
                    · rw [pt]; rfl
                    · rw [pe]; simp
                    · rw [pcn]; omega
                  · rw [if_neg h9] at h
                    by_cases h10 : src.getD cur '\x00' = '*'
                    · rw [if_pos h10] at h
                      simp only [Scanner.add_token, Scanner.add_token_literal] at h
                      injection h with h
                      subst h
                      try simp only [Scanner.source, Scanner.start, Scanner.current, Scanner.tokens, Scanner.line, Scanner.errors]
                      obtain ⟨p, pc, pt, pe, pcn, pW⟩ := piece_token_of_slice src cur (cur + 1) ln
                        TokenType.Star none (by decide) (by omega) (by omega)
                        (count_slice_single src cur hlt (by rw [h10]; decide))
                      refine ⟨by trivial, by trivial, by omega, by omega, p, pc, ?_, ?_, ?_, pW⟩
                      · rw [pt]; rfl
                      · rw [pe]; simp
                      · rw [pcn]; omega
                    · rw [if_neg h10] at h
                      by_cases h11 : src.getD cur '\x00' = '!'
                      · rw [if_pos h11] at h
                        simp only [Scanner.matches, Scanner.is_at_end, decide_eq_true_eq] at h
                        by_cases hm : src.length ≤ cur + 1 ∨ src.getD (cur + 1) '\x00' ≠ '='
                        · rw [if_pos hm, if_neg (by decide : ¬((false : Bool) = true))] at h
                          simp only [Scanner.add_token, Scanner.add_token_literal] at h
                          injection h with h
                          subst h
                          try simp only [Scanner.source, Scanner.start, Scanner.current, Scanner.tokens, Scanner.line, Scanner.errors]
                          obtain ⟨p, pc, pt, pe, pcn, pW⟩ := piece_token_of_slice src cur (cur + 1) ln
                            TokenType.Bang none (by decide) (by omega) (by omega)
                            (count_slice_single src cur hlt (by rw [h11]; decide))
                          refine ⟨by trivial, by trivial, by omega, by omega, p, pc, ?_, ?_, ?_, pW⟩
                          · rw [pt]; rfl
                          · rw [pe]; simp
                          · rw [pcn]; omega
                        · rw [if_neg hm, if_pos (by decide : (true : Bool) = true)] at h
                          obtain ⟨hm1, hm2⟩ := not_or.mp hm
                          rw [not_le] at hm1
                          have hm2e := not_ne_iff.mp hm2
                          simp only [Scanner.add_token, Scanner.add_token_literal] at h
                          injection h with h
                          subst h
                          try simp only [Scanner.source, Scanner.start, Scanner.current, Scanner.tokens, Scanner.line, Scanner.errors]
                          have hcnt2 : (sliceCh src cur (cur + 1 + 1)).count '\n' = 0 := by
                            rw [sliceCh_append src cur (cur + 1) (cur + 1 + 1) (by omega) (by omega),
                              List.count_append,
                              count_slice_single src cur hlt (by rw [h11]; decide),
                              count_slice_single src (cur + 1) (by omega) (by rw [hm2e]; decide)]
                          obtain ⟨p, pc, pt, pe, pcn, pW⟩ := piece_token_of_slice src cur (cur + 1 + 1) ln
                            TokenType.BangEqual none (by decide) (by omega) (by omega) hcnt2
                          refine ⟨by trivial, by trivial, by omega, by omega, p, pc, ?_, ?_, ?_, pW⟩
                          · rw [pt]; rfl
                          · rw [pe]; simp
                          · rw [pcn]; omega
                      · rw [if_neg h11] at h
                        by_cases h12 : src.getD cur '\x00' = '='
                        · rw [if_pos h12] at h
                          simp only [Scanner.matches, Scanner.is_at_end, decide_eq_true_eq] at h
                          by_cases hm : src.length ≤ cur + 1 ∨ src.getD (cur + 1) '\x00' ≠ '='
                          · rw [if_pos hm, if_neg (by decide : ¬((false : Bool) = true))] at h
                            simp only [Scanner.add_token, Scanner.add_token_literal] at h
                            injection h with h
                            subst h
                            try simp only [Scanner.source, Scanner.start, Scanner.current, Scanner.tokens, Scanner.line, Scanner.errors]
                            obtain ⟨p, pc, pt, pe, pcn, pW⟩ := piece_token_of_slice src cur (cur + 1) ln
                              TokenType.Equal none (by decide) (by omega) (by omega)
                              (count_slice_single src cur hlt (by rw [h12]; decide))
                            refine ⟨by trivial, by trivial, by omega, by omega, p, pc, ?_, ?_, ?_, pW⟩
                            · rw [pt]; rfl
                            · rw [pe]; simp
                            · rw [pcn]; omega
                          · rw [if_neg hm, if_pos (by decide : (true : Bool) = true)] at h
                            obtain ⟨hm1, hm2⟩ := not_or.mp hm
                            rw [not_le] at hm1
                            have hm2e := not_ne_iff.mp hm2
                            simp only [Scanner.add_token, Scanner.add_token_literal] at h
                            injection h with h
                            subst h
                            try simp only [Scanner.source, Scanner.start, Scanner.current, Scanner.tokens, Scanner.line, Scanner.errors]
                            have hcnt2 : (sliceCh src cur (cur + 1 + 1)).count '\n' = 0 := by
                              rw [sliceCh_append src cur (cur + 1) (cur + 1 + 1) (by omega) (by omega),
                                List.count_append,
                                count_slice_single src cur hlt (by rw [h12]; decide),
                                count_slice_single src (cur + 1) (by omega) (by rw [hm2e]; decide)]
                            obtain ⟨p, pc, pt, pe, pcn, pW⟩ := piece_token_of_slice src cur (cur + 1 + 1) ln
                              TokenType.EqualEqual none (by decide) (by omega) (by omega) hcnt2
                            refine ⟨by trivial, by trivial, by omega, by omega, p, pc, ?_, ?_, ?_, pW⟩
                            · rw [pt]; rfl
                            · rw [pe]; simp
                            · rw [pcn]; omega
                        · rw [if_neg h12] at h
                          by_cases h13 : src.getD cur '\x00' = '<'
                          · rw [if_pos h13] at h
                            simp only [Scanner.matches, Scanner.is_at_end, decide_eq_true_eq] at h
                            by_cases hm : src.length ≤ cur + 1 ∨ src.getD (cur + 1) '\x00' ≠ '='
                            · rw [if_pos hm, if_neg (by decide : ¬((false : Bool) = true))] at h
                              simp only [Scanner.add_token, Scanner.add_token_literal] at h
                              injection h with h
                              subst h
                              try simp only [Scanner.source, Scanner.start, Scanner.current, Scanner.tokens, Scanner.line, Scanner.errors]
                              obtain ⟨p, pc, pt, pe, pcn, pW⟩ := piece_token_of_slice src cur (cur + 1) ln
                                TokenType.Less none (by decide) (by omega) (by omega)
                                (count_slice_single src cur hlt (by rw [h13]; decide))
                              refine ⟨by trivial, by trivial, by omega, by omega, p, pc, ?_, ?_, ?_, pW⟩
                              · rw [pt]; rfl
                              · rw [pe]; simp
                              · rw [pcn]; omega
                            · rw [if_neg hm, if_pos (by decide : (true : Bool) = true)] at h
                              obtain ⟨hm1, hm2⟩ := not_or.mp hm
                              rw [not_le] at hm1
                              have hm2e := not_ne_iff.mp hm2
                              simp only [Scanner.add_token, Scanner.add_token_literal] at h
                              injection h with h
                              subst h
                              try simp only [Scanner.source, Scanner.start, Scanner.current, Scanner.tokens, Scanner.line, Scanner.errors]
                              have hcnt2 : (sliceCh src cur (cur + 1 + 1)).count '\n' = 0 := by
                                rw [sliceCh_append src cur (cur + 1) (cur + 1 + 1) (by omega) (by omega),
                                  List.count_append,
                                  count_slice_single src cur hlt (by rw [h13]; decide),
                                  count_slice_single src (cur + 1) (by omega) (by rw [hm2e]; decide)]
                              obtain ⟨p, pc, pt, pe, pcn, pW⟩ := piece_token_of_slice src cur (cur + 1 + 1) ln
                                TokenType.LessEqual none (by decide) (by omega) (by omega) hcnt2
                              refine ⟨by trivial, by trivial, by omega, by omega, p, pc, ?_, ?_, ?_, pW⟩
                              · rw [pt]; rfl
                              · rw [pe]; simp
                              · rw [pcn]; omega
                          · rw [if_neg h13] at h
                            by_cases h14 : src.getD cur '\x00' = '>'
                            · rw [if_pos h14] at h
                              simp only [Scanner.matches, Scanner.is_at_end, decide_eq_true_eq] at h
                              by_cases hm : src.length ≤ cur + 1 ∨ src.getD (cur + 1) '\x00' ≠ '='
                              · rw [if_pos hm, if_neg (by decide : ¬((false : Bool) = true))] at h
                                simp only [Scanner.add_token, Scanner.add_token_literal] at h
                                injection h with h
                                subst h
                                try simp only [Scanner.source, Scanner.start, Scanner.current, Scanner.tokens, Scanner.line, Scanner.errors]
                                obtain ⟨p, pc, pt, pe, pcn, pW⟩ := piece_token_of_slice src cur (cur + 1) ln
                                  TokenType.Greater none (by decide) (by omega) (by omega)
                                  (count_slice_single src cur hlt (by rw [h14]; decide))
                                refine ⟨by trivial, by trivial, by omega, by omega, p, pc, ?_, ?_, ?_, pW⟩
                                · rw [pt]; rfl
                                · rw [pe]; simp
                                · rw [pcn]; omega
                              · rw [if_neg hm, if_pos (by decide : (true : Bool) = true)] at h
                                obtain ⟨hm1, hm2⟩ := not_or.mp hm
                                rw [not_le] at hm1
                                have hm2e := not_ne_iff.mp hm2
                                simp only [Scanner.add_token, Scanner.add_token_literal] at h
                                injection h with h
                                subst h
                                try simp only [Scanner.source, Scanner.start, Scanner.current, Scanner.tokens, Scanner.line, Scanner.errors]
                                have hcnt2 : (sliceCh src cur (cur + 1 + 1)).count '\n' = 0 := by
                                  rw [sliceCh_append src cur (cur + 1) (cur + 1 + 1) (by omega) (by omega),
                                    List.count_append,
                                    count_slice_single src cur hlt (by rw [h14]; decide),
                                    count_slice_single src (cur + 1) (by omega) (by rw [hm2e]; decide)]
                                obtain ⟨p, pc, pt, pe, pcn, pW⟩ := piece_token_of_slice src cur (cur + 1 + 1) ln
                                  TokenType.GreaterEqual none (by decide) (by omega) (by omega) hcnt2
                                refine ⟨by trivial, by trivial, by omega, by omega, p, pc, ?_, ?_, ?_, pW⟩
                                · rw [pt]; rfl
                                · rw [pe]; simp
                                · rw [pcn]; omega
                            · rw [if_neg h14] at h
                              by_cases h15 : src.getD cur '\x00' = '/'
                              · rw [if_pos h15] at h
                                simp only [Scanner.matches, Scanner.is_at_end, decide_eq_true_eq] at h
                                by_cases hm : src.length ≤ cur + 1 ∨ src.getD (cur + 1) '\x00' ≠ '/'
                                · rw [if_pos hm, if_neg (by decide : ¬((false : Bool) = true))] at h
                                  simp only [Scanner.add_token, Scanner.add_token_literal] at h
                                  injection h with h
                                  subst h
                                  try simp only [Scanner.source, Scanner.start, Scanner.current, Scanner.tokens, Scanner.line, Scanner.errors]
                                  obtain ⟨p, pc, pt, pe, pcn, pW⟩ := piece_token_of_slice src cur (cur + 1) ln
                                    TokenType.Slash none (by decide) (by omega) (by omega)
                                    (count_slice_single src cur hlt (by rw [h15]; decide))
                                  refine ⟨by trivial, by trivial, by omega, by omega, p, pc, ?_, ?_, ?_, pW⟩
                                  · rw [pt]; rfl
                                  · rw [pe]; simp
                                  · rw [pcn]; omega
                                · rw [if_neg hm, if_pos (by decide : (true : Bool) = true)] at h
                                  obtain ⟨hm1, hm2⟩ := not_or.mp hm
                                  rw [not_le] at hm1
                                  have hm2e := not_ne_iff.mp hm2
                                  injection h with h
                                  subst h
                                  try simp only [Scanner.source, Scanner.start, Scanner.current, Scanner.tokens, Scanner.line, Scanner.errors]
                                  have hK : ((src.drop (cur + 1 + 1)).takeWhile (fun ch => ch != '\n')).length ≤ src.length - (cur + 1 + 1) := by
                                    have h0 := takeWhile_len_le (fun ch => ch != '\n') (src.drop (cur + 1 + 1))
                                    rwa [List.length_drop] at h0
                                  have hsl2 : sliceCh src cur (cur + 1 + 1) = [src.getD cur '\x00', src.getD (cur + 1) '\x00'] := by
                                    rw [sliceCh_cons src cur (cur + 1 + 1) hlt (by omega),
                                      sliceCh_cons src (cur + 1) (cur + 1 + 1) (by omega) (by omega), sliceCh_self]
                                  have hslK : sliceCh src (cur + 1 + 1) (cur + 1 + 1 + ((src.drop (cur + 1 + 1)).takeWhile (fun ch => ch != '\n')).length) = ((src.drop (cur + 1 + 1)).takeWhile (fun ch => ch != '\n')) :=
                                    takeWhile_drop_slice (fun ch => ch != '\n') src (cur + 1 + 1)
                                  have hdec : sliceCh src cur (cur + 1 + 1 + ((src.drop (cur + 1 + 1)).takeWhile (fun ch => ch != '\n')).length) =
                                      sliceCh src cur (cur + 1 + 1) ++
                                        sliceCh src (cur + 1 + 1) (cur + 1 + 1 + ((src.drop (cur + 1 + 1)).takeWhile (fun ch => ch != '\n')).length) :=
                                    sliceCh_append src cur (cur + 1 + 1) (cur + 1 + 1 + ((src.drop (cur + 1 + 1)).takeWhile (fun ch => ch != '\n')).length) (by omega) (by omega)
                                  have hcnt : (sliceCh src cur (cur + 1 + 1 + ((src.drop (cur + 1 + 1)).takeWhile (fun ch => ch != '\n')).length)).count '\n' = 0 := by
                                    rw [hdec, List.count_append, hsl2, hslK]
                                    rw [List.count_eq_zero.mpr ?c1, List.count_eq_zero.mpr ?c2]
                                    case c2 =>
                                      intro hmem
                                      have h0 := takeWhile_mem (fun ch => ch != '\n') (src.drop (cur + 1 + 1)) '\n' hmem
                                      simp at h0
                                    case c1 =>
                                      intro hmem
                                      rcases List.mem_cons.1 hmem with he | hmem2
                                      · rw [h15] at he
                                        exact absurd he (by decide)
                                      · rcases List.mem_cons.1 hmem2 with he | hmem3
                                        · rw [hm2e] at he
                                          exact absurd he (by decide)
                                        · simp at hmem3
                                  have hlen2 : (sliceCh src cur (cur + 1 + 1 + ((src.drop (cur + 1 + 1)).takeWhile (fun ch => ch != '\n')).length)).length =
                                      cur + 1 + 1 + ((src.drop (cur + 1 + 1)).takeWhile (fun ch => ch != '\n')).length - cur :=
                                    sliceCh_length src cur (cur + 1 + 1 + ((src.drop (cur + 1 + 1)).takeWhile (fun ch => ch != '\n')).length) (by omega) (by omega)
                                  refine ⟨by trivial, by trivial, by omega, by omega,
                                    Piece.comment (sliceCh src cur (cur + 1 + 1 + ((src.drop (cur + 1 + 1)).takeWhile (fun ch => ch != '\n')).length)), rfl,
                                    by simp [Piece.tokenOf], by simp [Piece.errorOf], ?_, ?_⟩
                                  · show ln = ln + (Piece.comment (sliceCh src cur (cur + 1 + 1 + ((src.drop (cur + 1 + 1)).takeWhile (fun ch => ch != '\n')).length))).chars.count '\n'
                                    rw [show (Piece.comment (sliceCh src cur (cur + 1 + 1 + ((src.drop (cur + 1 + 1)).takeWhile (fun ch => ch != '\n')).length))).chars = sliceCh src cur (cur + 1 + 1 + ((src.drop (cur + 1 + 1)).takeWhile (fun ch => ch != '\n')).length) from rfl, hcnt]
                                    omega
                                  · intro hln
                                    refine ⟨?_, ?_, ?_, hcnt⟩
                                    · show sliceCh src cur (cur + 1 + 1 + ((src.drop (cur + 1 + 1)).takeWhile (fun ch => ch != '\n')).length) =
                                        sliceCh src cur (cur + (sliceCh src cur (cur + 1 + 1 + ((src.drop (cur + 1 + 1)).takeWhile (fun ch => ch != '\n')).length)).length)
                                      rw [hlen2]
                                      have harith : cur + (cur + 1 + 1 + ((src.drop (cur + 1 + 1)).takeWhile (fun ch => ch != '\n')).length - cur) =
                                          cur + 1 + 1 + ((src.drop (cur + 1 + 1)).takeWhile (fun ch => ch != '\n')).length := by omega
                                      rw [harith]
                                    · show cur + (sliceCh src cur (cur + 1 + 1 + ((src.drop (cur + 1 + 1)).takeWhile (fun ch => ch != '\n')).length)).length ≤ src.length
                                      rw [hlen2]
                                      omega
                                    · rw [hdec, hsl2, h15, hm2e]
                                      rfl
                              · rw [if_neg h15] at h
                                by_cases h16 : src.getD cur '\x00' = ' ' ∨ src.getD cur '\x00' = '\r' ∨ src.getD cur '\x00' = 't'
                                · rw [if_pos h16] at h
                                  injection h with h
                                  subst h
                                  try simp only [Scanner.source, Scanner.start, Scanner.current, Scanner.tokens, Scanner.line, Scanner.errors]
                                  have hnl : src.getD cur '\x00' ≠ '\n' := by
                                    rcases h16 with he | he | he <;> rw [he] <;> decide
                                  have hsl : sliceCh src cur (cur + 1) = [src.getD cur '\x00'] := by
                                    rw [sliceCh_cons src cur (cur + 1) hlt (by omega), sliceCh_self]
                                  refine ⟨by trivial, by trivial, by omega, by omega, Piece.ws (src.getD cur '\x00'), hsl.symm,
                                    by simp [Piece.tokenOf], by simp [Piece.errorOf], ?_, ?_⟩
                                  · show ln = ln + (Piece.ws (src.getD cur '\x00')).chars.count '\n'
                                    simp [Piece.chars, List.count_cons]
                                    simpa [List.getD] using hnl
                                  · intro hln
                                    exact ⟨h16, hsl, hlt⟩
                                · rw [if_neg h16] at h
                                  by_cases h17 : src.getD cur '\x00' = '\n'
                                  · rw [if_pos h17] at h
                                    injection h with h
                                    subst h
                                    try simp only [Scanner.source, Scanner.start, Scanner.current, Scanner.tokens, Scanner.line, Scanner.errors]
                                    have hsl : sliceCh src cur (cur + 1) = ['\n'] := by
                                      rw [sliceCh_cons src cur (cur + 1) hlt (by omega), sliceCh_self, h17]
                                    refine ⟨by trivial, by trivial, by omega, by omega, Piece.nl, hsl.symm,
                                      by simp [Piece.tokenOf], by simp [Piece.errorOf], ?_, fun _ => ⟨hsl, hlt⟩⟩
                                    show ln + 1 = ln + Piece.nl.chars.count '\n'
                                    simp [Piece.chars]
                                  · rw [if_neg h17] at h
                                    by_cases h18 : src.getD cur '\x00' = '"'
                                    · rw [if_pos h18] at h
                                      by_cases hcl : cur + 1 + ((src.drop (cur + 1)).takeWhile (fun ch => ch != '"')).length < src.length
                                      · rw [string_spec src { source := src, tokens := toks, start := cur, current := cur + 1, line := ln, errors := errs } cur
                                          ((src.drop (cur + 1)).takeWhile (fun ch => ch != '"')).length (((src.drop (cur + 1)).takeWhile (fun ch => ch != '"')).count '\n') rfl rfl rfl rfl rfl hcl] at h
                                        injection h with h
                                        subst h
                                        try simp only [Scanner.source, Scanner.start, Scanner.current, Scanner.tokens, Scanner.line, Scanner.errors]
                                        have hstop : src.getD (cur + 1 + ((src.drop (cur + 1)).takeWhile (fun ch => ch != '"')).length) '\x00' = '"' := by
                                          have h0 := takeWhile_stop (fun ch => ch != '"') (src.drop (cur + 1)) ?_
                                          · rw [getD_drop src (cur + 1) ((src.drop (cur + 1)).takeWhile (fun ch => ch != '"')).length] at h0
                                            simpa using h0
                                          · rw [List.length_drop]
                                            omega
                                        have hbody : sliceCh src (cur + 1) (cur + 1 + ((src.drop (cur + 1)).takeWhile (fun ch => ch != '"')).length) = ((src.drop (cur + 1)).takeWhile (fun ch => ch != '"')) :=
                                          takeWhile_drop_slice (fun ch => ch != '"') src (cur + 1)
                                        have hdec : sliceCh src cur (cur + 1 + ((src.drop (cur + 1)).takeWhile (fun ch => ch != '"')).length + 1) =
                                            sliceCh src cur (cur + 1) ++
                                              (sliceCh src (cur + 1) (cur + 1 + ((src.drop (cur + 1)).takeWhile (fun ch => ch != '"')).length) ++
                                                sliceCh src (cur + 1 + ((src.drop (cur + 1)).takeWhile (fun ch => ch != '"')).length) (cur + 1 + ((src.drop (cur + 1)).takeWhile (fun ch => ch != '"')).length + 1)) := by
                                          rw [← sliceCh_append src (cur + 1) (cur + 1 + ((src.drop (cur + 1)).takeWhile (fun ch => ch != '"')).length)
                                            (cur + 1 + ((src.drop (cur + 1)).takeWhile (fun ch => ch != '"')).length + 1) (by omega) (by omega)]
                                          exact sliceCh_append src cur (cur + 1) (cur + 1 + ((src.drop (cur + 1)).takeWhile (fun ch => ch != '"')).length + 1) (by omega) (by omega)
                                        have hcnt : (sliceCh src cur (cur + 1 + ((src.drop (cur + 1)).takeWhile (fun ch => ch != '"')).length + 1)).count '\n' = ((src.drop (cur + 1)).takeWhile (fun ch => ch != '"')).count '\n' := by
                                          rw [hdec, List.count_append, List.count_append, hbody,
                                            count_slice_single src cur hlt (by rw [h18]; decide),
                                            count_slice_single src (cur + 1 + ((src.drop (cur + 1)).takeWhile (fun ch => ch != '"')).length) (by omega) (by rw [hstop]; decide)]
                                          omega
                                        have hlen2 : (sliceCh src cur (cur + 1 + ((src.drop (cur + 1)).takeWhile (fun ch => ch != '"')).length + 1)).length =
                                            cur + 1 + ((src.drop (cur + 1)).takeWhile (fun ch => ch != '"')).length + 1 - cur :=
                                          sliceCh_length src cur (cur + 1 + ((src.drop (cur + 1)).takeWhile (fun ch => ch != '"')).length + 1) (by omega) (by omega)
                                        obtain ⟨p, pc, pt, pe, pcn, pW⟩ := piece_token_string src cur
                                          (cur + 1 + ((src.drop (cur + 1)).takeWhile (fun ch => ch != '"')).length + 1) ln (((src.drop (cur + 1)).takeWhile (fun ch => ch != '"')).count '\n')
                                          (some (Literal.String (String.mk (sliceCh src (cur + 1) (cur + 1 + ((src.drop (cur + 1)).takeWhile (fun ch => ch != '"')).length)))))
                                          (by omega) (by omega) hcnt
                                        refine ⟨by trivial, by trivial, by omega, by omega, p, pc, ?_, ?_, ?_, pW⟩
                                        · rw [pt]; rfl
                                        · rw [pe]; simp
                                        · rw [pcn]
                                      · rw [string_spec_fail src { source := src, tokens := toks, start := cur, current := cur + 1, line := ln, errors := errs } cur rfl rfl (by omega)] at h
                                        exact Option.noConfusion h
                                    · rw [if_neg h18] at h
                                      by_cases h19 : (src.getD cur '\x00').isDigit = true
                                      · rw [if_pos h19] at h
                                        obtain ⟨q, hpq, hcz, hnum⟩ := number_spec src { source := src, tokens := toks, start := cur, current := cur + 1, line := ln, errors := errs }
                                          cur (cur + 1 + ((src.drop (cur + 1)).takeWhile Char.isDigit).length) (if cur + 1 + ((src.drop (cur + 1)).takeWhile Char.isDigit).length < src.length ∧ src.getD (cur + 1 + ((src.drop (cur + 1)).takeWhile Char.isDigit).length) '\x00' = '.' ∧ cur + 1 + ((src.drop (cur + 1)).takeWhile Char.isDigit).length + 1 < src.length ∧ (src.getD (cur + 1 + ((src.drop (cur + 1)).takeWhile Char.isDigit).length + 1) '\x00').isDigit = true then cur + 1 + ((src.drop (cur + 1)).takeWhile Char.isDigit).length + 1 + ((src.drop (cur + 1 + ((src.drop (cur + 1)).takeWhile Char.isDigit).length + 1)).takeWhile Char.isDigit).length else cur + 1 + ((src.drop (cur + 1)).takeWhile Char.isDigit).length) rfl rfl rfl hlt h19 rfl rfl
                                        rw [hnum] at h
                                        injection h with h
                                        subst h
                                        try simp only [Scanner.source, Scanner.start, Scanner.current, Scanner.tokens, Scanner.line, Scanner.errors]
                                        have hd1b : ((src.drop (cur + 1)).takeWhile Char.isDigit).length ≤ src.length - (cur + 1) := by
                                          have h0 := takeWhile_len_le Char.isDigit (src.drop (cur + 1))
                                          rwa [List.length_drop] at h0
                                        have hEb : cur < (if cur + 1 + ((src.drop (cur + 1)).takeWhile Char.isDigit).length < src.length ∧ src.getD (cur + 1 + ((src.drop (cur + 1)).takeWhile Char.isDigit).length) '\x00' = '.' ∧ cur + 1 + ((src.drop (cur + 1)).takeWhile Char.isDigit).length + 1 < src.length ∧ (src.getD (cur + 1 + ((src.drop (cur + 1)).takeWhile Char.isDigit).length + 1) '\x00').isDigit = true then cur + 1 + ((src.drop (cur + 1)).takeWhile Char.isDigit).length + 1 + ((src.drop (cur + 1 + ((src.drop (cur + 1)).takeWhile Char.isDigit).length + 1)).takeWhile Char.isDigit).length else cur + 1 + ((src.drop (cur + 1)).takeWhile Char.isDigit).length) ∧ (if cur + 1 + ((src.drop (cur + 1)).takeWhile Char.isDigit).length < src.length ∧ src.getD (cur + 1 + ((src.drop (cur + 1)).takeWhile Char.isDigit).length) '\x00' = '.' ∧ cur + 1 + ((src.drop (cur + 1)).takeWhile Char.isDigit).length + 1 < src.length ∧ (src.getD (cur + 1 + ((src.drop (cur + 1)).takeWhile Char.isDigit).length + 1) '\x00').isDigit = true then cur + 1 + ((src.drop (cur + 1)).takeWhile Char.isDigit).length + 1 + ((src.drop (cur + 1 + ((src.drop (cur + 1)).takeWhile Char.isDigit).length + 1)).takeWhile Char.isDigit).length else cur + 1 + ((src.drop (cur + 1)).takeWhile Char.isDigit).length) ≤ src.length := by
                                          by_cases hfr : cur + 1 + ((src.drop (cur + 1)).takeWhile Char.isDigit).length < src.length ∧ src.getD (cur + 1 + ((src.drop (cur + 1)).takeWhile Char.isDigit).length) '\x00' = '.' ∧
                                              cur + 1 + ((src.drop (cur + 1)).takeWhile Char.isDigit).length + 1 < src.length ∧ (src.getD (cur + 1 + ((src.drop (cur + 1)).takeWhile Char.isDigit).length + 1) '\x00').isDigit = true
                                          · rw [if_pos hfr]
                                            obtain ⟨hf1, hf2, hf3, hf4⟩ := hfr
                                            have hd2b : ((src.drop (cur + 1 + ((src.drop (cur + 1)).takeWhile Char.isDigit).length + 1)).takeWhile Char.isDigit).length ≤ src.length - (cur + 1 + ((src.drop (cur + 1)).takeWhile Char.isDigit).length + 1) := by
                                              have h0 := takeWhile_len_le Char.isDigit (src.drop (cur + 1 + ((src.drop (cur + 1)).takeWhile Char.isDigit).length + 1))
                                              rwa [List.length_drop] at h0
                                            omega
                                          · rw [if_neg hfr]
                                            omega
                                        obtain ⟨p, pc, pt, pe, pcn, pW⟩ := piece_token_of_slice src cur (if cur + 1 + ((src.drop (cur + 1)).takeWhile Char.isDigit).length < src.length ∧ src.getD (cur + 1 + ((src.drop (cur + 1)).takeWhile Char.isDigit).length) '\x00' = '.' ∧ cur + 1 + ((src.drop (cur + 1)).takeWhile Char.isDigit).length + 1 < src.length ∧ (src.getD (cur + 1 + ((src.drop (cur + 1)).takeWhile Char.isDigit).length + 1) '\x00').isDigit = true then cur + 1 + ((src.drop (cur + 1)).takeWhile Char.isDigit).length + 1 + ((src.drop (cur + 1 + ((src.drop (cur + 1)).takeWhile Char.isDigit).length + 1)).takeWhile Char.isDigit).length else cur + 1 + ((src.drop (cur + 1)).takeWhile Char.isDigit).length) ln
                                          TokenType.Number (some (Literal.Number q)) (by decide) hEb.1 hEb.2 hcz
                                        refine ⟨by trivial, by trivial, hEb.1, hEb.2, p, pc, ?_, ?_, ?_, pW⟩
                                        · rw [pt]; rfl
                                        · rw [pe]; simp
                                        · rw [pcn]; omega
                                      · rw [if_neg h19] at h
                                        by_cases h20 : Scanner.is_alpha (src.getD cur '\x00') = true
                                        · rw [if_pos h20] at h
                                          injection h with h
                                          subst h
                                          rw [identifier_spec src { source := src, tokens := toks, start := cur, current := cur + 1, line := ln, errors := errs } cur (cur + 1 + ((src.drop (cur + 1)).takeWhile rustIsAlphanumeric).length) rfl rfl rfl rfl]
                                          try simp only [Scanner.source, Scanner.start, Scanner.current, Scanner.tokens, Scanner.line, Scanner.errors]
                                          have halb : ((src.drop (cur + 1)).takeWhile rustIsAlphanumeric).length ≤ src.length - (cur + 1) := by
                                            have h0 := takeWhile_len_le rustIsAlphanumeric (src.drop (cur + 1))
                                            rwa [List.length_drop] at h0
                                          have hrun : sliceCh src (cur + 1) (cur + 1 + ((src.drop (cur + 1)).takeWhile rustIsAlphanumeric).length) = ((src.drop (cur + 1)).takeWhile rustIsAlphanumeric) :=
                                            takeWhile_drop_slice rustIsAlphanumeric src (cur + 1)
                                          have hcz : (sliceCh src cur (cur + 1 + ((src.drop (cur + 1)).takeWhile rustIsAlphanumeric).length)).count '\n' = 0 := by
                                            rw [List.count_eq_zero]
                                            intro hmem
                                            rw [sliceCh_cons src cur (cur + 1 + ((src.drop (cur + 1)).takeWhile rustIsAlphanumeric).length) hlt (by omega)] at hmem
                                            rcases List.mem_cons.1 hmem with he | hmb
                                            · exact h17 he.symm
                                            · rw [hrun] at hmb
                                              exact ne_nl_of_alnum (takeWhile_mem rustIsAlphanumeric (src.drop (cur + 1)) '\n' hmb) rfl
                                          obtain ⟨p, pc, pt, pe, pcn, pW⟩ := piece_token_of_slice src cur (cur + 1 + ((src.drop (cur + 1)).takeWhile rustIsAlphanumeric).length) ln
                                            ((keywords (String.mk (sliceCh src cur (cur + 1 + ((src.drop (cur + 1)).takeWhile rustIsAlphanumeric).length)))).getD TokenType.Identifier)
                                            ((keywords (String.mk (sliceCh src cur (cur + 1 + ((src.drop (cur + 1)).takeWhile rustIsAlphanumeric).length)))).map (fun _ => Literal.Identifier (String.mk (sliceCh src cur (cur + 1 + ((src.drop (cur + 1)).takeWhile rustIsAlphanumeric).length)))))
                                            (keywords_getD_ne_eof (String.mk (sliceCh src cur (cur + 1 + ((src.drop (cur + 1)).takeWhile rustIsAlphanumeric).length)))) (by omega) (by omega) hcz
                                          refine ⟨by trivial, by trivial, by omega, by omega, p, pc, ?_, ?_, ?_, pW⟩
                                          · rw [pt]; rfl
                                          · rw [pe]; simp
                                          · rw [pcn]; omega
                                        · rw [if_neg h20] at h
                                          injection h with h
                                          subst h
                                          try simp only [Scanner.source, Scanner.start, Scanner.current, Scanner.tokens, Scanner.line, Scanner.errors]
                                          have hsl : sliceCh src cur (cur + 1) = [src.getD cur '\x00'] := by
                                            rw [sliceCh_cons src cur (cur + 1) hlt (by omega), sliceCh_self]
                                          refine ⟨by trivial, by trivial, by omega, by omega, Piece.bad (src.getD cur '\x00') ln, hsl.symm,
                                            by simp [Piece.tokenOf], rfl, ?_, ?_⟩
                                          · show ln = ln + (Piece.bad (src.getD cur '\x00') ln).chars.count '\n'
                                            simp [Piece.chars, List.count_cons]
                                            simpa [List.getD] using h17
                                          · intro hln
                                            exact ⟨hsl, hlt, hln⟩

/-! ### The scanning loop -/

theorem scan_inv_step {src : List Char} {s s2 : Scanner} (hinv : ScanInv src s)
    (hlt : s.current < src.length)
    (h : Scanner.scan_token { s with start := s.current } = some s2) :
    ScanInv src s2 ∧ s.current < s2.current := by
  obtain ⟨hsrc, hle, hline, ps, hps, htok, herr⟩ := hinv
  obtain ⟨h2src, h2st, h2lt, h2le, p, pchars, ptoks, perrs, pline, pW⟩ :=
    scan_token_step src { s with start := s.current } s2 (by simpa using hsrc)
      rfl (by simpa using hlt) h
  have h2lt2 : s.current < s2.current := h2lt
  have hcl : p.chars.length = s2.current - s.current := by
    rw [pchars]
    exact sliceCh_length src s.current s2.current (Nat.le_of_lt h2lt2) h2le
  have hat : PieceAt src s.current p := pW hline
  have hend : s.current + p.chars.length = s2.current := by omega
  refine ⟨⟨h2src, h2le, ?_, ps ++ [p], ?_, ?_, ?_⟩, h2lt2⟩
  · rw [pline]
    show s.line + p.chars.count '\n' = 1 + (src.take s2.current).count '\n'
    rw [count_take_split src s.current s2.current (Nat.le_of_lt h2lt2), ← pchars, hline]
    omega
  · have := piecesFrom_append hps hat
    rwa [hend] at this
  · rw [ptoks, List.filterMap_append]
    show s.tokens ++ (Piece.tokenOf p).toList =
      ps.filterMap Piece.tokenOf ++ [p].filterMap Piece.tokenOf
    rw [htok]
    cases hto : Piece.tokenOf p <;> simp [List.filterMap_cons, hto]
  · rw [perrs, List.filterMap_append]
    show s.errors ++ (Piece.errorOf p).toList =
      ps.filterMap Piece.errorOf ++ [p].filterMap Piece.errorOf
    rw [herr]
    cases heo : Piece.errorOf p <;> simp [List.filterMap_cons, heo]

theorem scan_tokens_go_final {src : List Char} :
    ∀ (fuel : Nat) (s r : Scanner), ScanInv src s →
      Scanner.scan_tokens_go fuel s = some r →
      ∃ ps : List Piece, PiecesFrom src 0 ps src.length ∧
        r.source = src ∧
        r.tokens = ps.filterMap Piece.tokenOf ++
          [{ token_type := TokenType.EOF, lexeme := "", literal := none,
             line := 1 + src.count '\n', startPos := src.length,
             endPos := src.length }] ∧
        r.errors = ps.filterMap Piece.errorOf := by
  intro fuel
  induction fuel with
  | zero => intro s r _ h; exact Option.noConfusion h
  | succ fuel ih =>
    intro s r hinv h
    obtain ⟨hsrc, hle, hline, ps, hps, htok, herr⟩ := hinv
    simp only [Scanner.scan_tokens_go] at h
    by_cases hend : s.is_at_end = true
    · rw [if_pos hend] at h
      injection h with h
      subst h
      have hcur : s.current = src.length := by
        simp [Scanner.is_at_end, hsrc] at hend
        omega
      refine ⟨ps, by rwa [hcur] at hps, hsrc, ?_, ?_⟩
      · show s.tokens ++ [_] = _
        rw [htok, hcur, hline, hcur, List.take_length]
      · exact herr
    · rw [if_neg hend] at h
      have hlt : s.current < src.length := by
        simp [Scanner.is_at_end, hsrc] at hend
        omega
      cases hsc : Scanner.scan_token { s with start := s.current } with
      | none => rw [hsc] at h; exact Option.noConfusion h
      | some s3 =>
        rw [hsc] at h
        obtain ⟨hinv3, _⟩ :=
          scan_inv_step ⟨hsrc, hle, hline, ps, hps, htok, herr⟩ hlt hsc
        exact ih s3 r hinv3 h

theorem scanInv_new (src : String) : ScanInv src.data (Scanner.new src) :=
  ⟨rfl, by simp [Scanner.new], by simp [Scanner.new], [], PiecesFrom.nil 0, rfl, rfl⟩

/-- Full characterization of a completed scan of `src`: the source
decomposes into well-formed pieces, the token vector is the pieces' tokens
followed by the single `EOF` token, and the error vector is the pieces'
diagnostics, in order. -/
theorem scanSource_final {src : String} {r : Scanner}
    (h : scanSource src = some r) :
    ∃ ps : List Piece, PiecesFrom src.data 0 ps src.data.length ∧
      r.source = src.data ∧
      r.tokens = ps.filterMap Piece.tokenOf ++
        [{ token_type := TokenType.EOF, lexeme := "", literal := none,
           line := 1 + src.data.count '\n', startPos := src.data.length,
           endPos := src.data.length }] ∧
      r.errors = ps.filterMap Piece.errorOf :=
  scan_tokens_go_final _ _ _ (scanInv_new src) h

/-- The result of the scanning loop does not depend on the fuel, as long as
the fuel covers the remaining buffer plus one final end-of-buffer check; in
particular `none` means exactly that a `scan_token` call panicked. -/
theorem scan_tokens_go_fuel {src : List Char} :
    ∀ (f1 f2 : Nat) (s : Scanner), s.source = src → s.current ≤ src.length →
      src.length + 1 ≤ f1 + s.current → src.length + 1 ≤ f2 + s.current →
      Scanner.scan_tokens_go f1 s = Scanner.scan_tokens_go f2 s := by
  intro f1
  induction f1 with
  | zero =>
    intro f2 s hsrc hle h1 h2
    exact absurd h1 (by omega)
  | succ f1 ih =>
    intro f2 s hsrc hle h1 h2
    cases f2 with
    | zero => exact absurd h2 (by omega)
    | succ f2 =>
      simp only [Scanner.scan_tokens_go]
      by_cases hend : s.is_at_end = true
      · rw [if_pos hend, if_pos hend]
      · rw [if_neg hend, if_neg hend]
        have hlt : s.current < src.length := by
          simp [Scanner.is_at_end, hsrc] at hend
          omega
        cases hsc : Scanner.scan_token { s with start := s.current } with
        | none => rfl
        | some s3 =>
          obtain ⟨h3src, _, h3lt, h3le, _⟩ :=
            scan_token_step src { s with start := s.current } s3
              (by simpa using hsrc) rfl (by simpa using hlt) hsc
          have h3lt2 : s.current < s3.current := h3lt
          exact ih f2 s3 h3src h3le (by omega) (by omega)

/-- Totality of one scanning step away from string literals: on an
in-bounds cursor whose character is not a double quote, `scan_token` never
panics. -/
theorem scan_token_total {src : List Char} (s : Scanner) (hsrc : s.source = src)
    (hst : s.start = s.current) (hlt : s.current < src.length)
    (hq : src.getD s.current '\x00' ≠ '"') :
    ∃ s2, Scanner.scan_token s = some s2 := by
  obtain ⟨src0, toks, st, cur, ln, errs⟩ := s
  try simp only [Scanner.source] at hsrc
  try simp only [Scanner.start, Scanner.current] at hst
  try simp only [Scanner.current] at hlt
  try simp only [Scanner.current] at hq
  subst src0 st
  unfold Scanner.scan_token
  unfold Scanner.advance
  simp only [List.getElem?_eq_getElem hlt]
  rw [← List.getD_eq_getElem src '\x00' hlt]
  by_cases h1 : src.getD cur '\x00' = '('
  · rw [if_pos h1]
    exact ⟨_, rfl⟩
  · rw [if_neg h1]
    by_cases h2 : src.getD cur '\x00' = ')'
    · rw [if_pos h2]
      exact ⟨_, rfl⟩
    · rw [if_neg h2]
      by_cases h3 : src.getD cur '\x00' = '\x7b'
      · rw [if_pos h3]
        exact ⟨_, rfl⟩
      · rw [if_neg h3]
        by_cases h4 : src.getD cur '\x00' = '\x7d'
        · rw [if_pos h4]
          exact ⟨_, rfl⟩
        · rw [if_neg h4]
          by_cases h5 : src.getD cur '\x00' = ','
          · rw [if_pos h5]
            exact ⟨_, rfl⟩
          · rw [if_neg h5]
            by_cases h6 : src.getD cur '\x00' = '.'
            · rw [if_pos h6]
              exact ⟨_, rfl⟩
            · rw [if_neg h6]
              by_cases h7 : src.getD cur '\x00' = '-'
              · rw [if_pos h7]
                exact ⟨_, rfl⟩
              · rw [if_neg h7]
                by_cases h8 : src.getD cur '\x00' = '+'
                · rw [if_pos h8]
                  exact ⟨_, rfl⟩
                · rw [if_neg h8]
                  by_cases h9 : src.getD cur '\x00' = ';'
                  · rw [if_pos h9]
                    exact ⟨_, rfl⟩
                  · rw [if_neg h9]
                    by_cases h10 : src.getD cur '\x00' = '*'
                    · rw [if_pos h10]
                      exact ⟨_, rfl⟩
                    · rw [if_neg h10]
                      by_cases h11 : src.getD cur '\x00' = '!'
                      · rw [if_pos h11]
                        exact ⟨_, rfl⟩
                      · rw [if_neg h11]
                        by_cases h12 : src.getD cur '\x00' = '='
                        · rw [if_pos h12]
                          exact ⟨_, rfl⟩
                        · rw [if_neg h12]
                          by_cases h13 : src.getD cur '\x00' = '<'
                          · rw [if_pos h13]
                            exact ⟨_, rfl⟩
                          · rw [if_neg h13]
                            by_cases h14 : src.getD cur '\x00' = '>'
                            · rw [if_pos h14]
                              exact ⟨_, rfl⟩
                            · rw [if_neg h14]
                              by_cases h15 : src.getD cur '\x00' = '/'
                              · rw [if_pos h15]
                                by_cases hm : (({ source := src, tokens := toks, start := cur, current := cur + 1, line := ln, errors := errs } : Scanner).matches '/').1 = true
                                · rw [if_pos hm]
                                  exact ⟨_, rfl⟩
                                · rw [if_neg hm]
                                  exact ⟨_, rfl⟩
                              · rw [if_neg h15]
                                by_cases h16 : src.getD cur '\x00' = ' ' ∨ src.getD cur '\x00' = '\r' ∨ src.getD cur '\x00' = 't'
                                · rw [if_pos h16]
                                  exact ⟨_, rfl⟩
                                · rw [if_neg h16]
                                  by_cases h17 : src.getD cur '\x00' = '\n'
                                  · rw [if_pos h17]
                                    exact ⟨_, rfl⟩
                                  · rw [if_neg h17]
                                    by_cases h18 : src.getD cur '\x00' = '"'
                                    · exact absurd h18 hq
                                    · rw [if_neg h18]
                                      by_cases h19 : (src.getD cur '\x00').isDigit = true
                                      · rw [if_pos h19]
                                        obtain ⟨q, hpq, hcz, hnum⟩ := number_spec src { source := src, tokens := toks, start := cur, current := cur + 1, line := ln, errors := errs }
                                          cur (cur + 1 + ((src.drop (cur + 1)).takeWhile Char.isDigit).length) (if cur + 1 + ((src.drop (cur + 1)).takeWhile Char.isDigit).length < src.length ∧ src.getD (cur + 1 + ((src.drop (cur + 1)).takeWhile Char.isDigit).length) '\x00' = '.' ∧ cur + 1 + ((src.drop (cur + 1)).takeWhile Char.isDigit).length + 1 < src.length ∧ (src.getD (cur + 1 + ((src.drop (cur + 1)).takeWhile Char.isDigit).length + 1) '\x00').isDigit = true then cur + 1 + ((src.drop (cur + 1)).takeWhile Char.isDigit).length + 1 + ((src.drop (cur + 1 + ((src.drop (cur + 1)).takeWhile Char.isDigit).length + 1)).takeWhile Char.isDigit).length else cur + 1 + ((src.drop (cur + 1)).takeWhile Char.isDigit).length) rfl rfl rfl hlt h19 rfl rfl
                                        exact ⟨_, hnum⟩
                                      · rw [if_neg h19]
                                        by_cases h20 : Scanner.is_alpha (src.getD cur '\x00') = true
                                        · rw [if_pos h20]
                                          exact ⟨_, rfl⟩
                                        · rw [if_neg h20]
                                          exact ⟨_, rfl⟩
/-- Decimal digits are rejected by every dispatch test of `scan_token`
that precedes the digit class. -/
theorem isDigit_not_dispatch {c : Char} (h : c.isDigit = true) :
    c ≠ '(' ∧ c ≠ ')' ∧ c ≠ '\x7b' ∧ c ≠ '\x7d' ∧ c ≠ ',' ∧ c ≠ '.' ∧
    c ≠ '-' ∧ c ≠ '+' ∧ c ≠ ';' ∧ c ≠ '*' ∧ c ≠ '!' ∧ c ≠ '=' ∧ c ≠ '<' ∧
    c ≠ '>' ∧ c ≠ '/' ∧ ¬(c = ' ' ∨ c = '\r' ∨ c = 't') ∧ c ≠ '\n' ∧
    c ≠ '"' := by
  have hr := isDigit_toNat h
  refine ⟨fun he => absurd (he ▸ hr) (by decide),
    fun he => absurd (he ▸ hr) (by decide),
    fun he => absurd (he ▸ hr) (by decide),
    fun he => absurd (he ▸ hr) (by decide),
    fun he => absurd (he ▸ hr) (by decide),
    fun he => absurd (he ▸ hr) (by decide),
    fun he => absurd (he ▸ hr) (by decide),
    fun he => absurd (he ▸ hr) (by decide),
    fun he => absurd (he ▸ hr) (by decide),
    fun he => absurd (he ▸ hr) (by decide),
    fun he => absurd (he ▸ hr) (by decide),
    fun he => absurd (he ▸ hr) (by decide),
    fun he => absurd (he ▸ hr) (by decide),
    fun he => absurd (he ▸ hr) (by decide),
    fun he => absurd (he ▸ hr) (by decide), ?_,
    fun he => absurd (he ▸ hr) (by decide),
    fun he => absurd (he ▸ hr) (by decide)⟩
  rintro (he | he | he)
  · exact absurd (he ▸ hr) (by decide)
  · exact absurd (he ▸ hr) (by decide)
  · exact absurd (he ▸ hr) (by decide)

/-- One `scan_token` call whose dispatch character is a decimal digit:
the number routine runs, consuming the maximal digit run, a `.` only when
a digit follows it, and a further maximal digit run; the consumed slice
parses and is emitted as the one new `Number` token. -/
theorem scan_token_digit_case (src : List Char) (s : Scanner) (pos e1 E : Nat)
    (hsrc : s.source = src) (hst : s.start = pos) (hcur : s.current = pos)
    (hpos : pos < src.length) (hd : (src.getD pos '\x00').isDigit = true)
    (he1 : e1 = pos + 1 + ((src.drop (pos + 1)).takeWhile Char.isDigit).length)
    (hE : E = if e1 < src.length ∧ src.getD e1 '\x00' = '.' ∧
          e1 + 1 < src.length ∧ (src.getD (e1 + 1) '\x00').isDigit = true
        then e1 + 1 + ((src.drop (e1 + 1)).takeWhile Char.isDigit).length
        else e1) :
    ∃ q : ℚ, parseF64 (String.mk (sliceCh src pos E)) = some q ∧
      Scanner.scan_token s = some { s with
        current := E,
        tokens := s.tokens ++
          [{ token_type := TokenType.Number,
             lexeme := String.mk (sliceCh src pos E),
             literal := some (Literal.Number q),
             line := s.line, startPos := pos, endPos := E }] } := by
  obtain ⟨src0, toks, st, cur, ln, errs⟩ := s
  try simp only [Scanner.source] at hsrc
  try simp only [Scanner.start] at hst
  try simp only [Scanner.current] at hcur
  try simp only [Scanner.source, Scanner.start, Scanner.current,
    Scanner.tokens, Scanner.line, Scanner.errors]
  subst src0 st cur
  obtain ⟨q, hpq, hcz, hnum⟩ := number_spec src
    { source := src, tokens := toks, start := pos, current := pos + 1,
      line := ln, errors := errs } pos e1 E rfl rfl rfl hpos hd he1 hE
  refine ⟨q, hpq, ?_⟩
  unfold Scanner.scan_token
  unfold Scanner.advance
  simp only [List.getElem?_eq_getElem hpos]
  rw [← List.getD_eq_getElem src '\x00' hpos]
  obtain ⟨n1, n2, n3, n4, n5, n6, n7, n8, n9, n10, n11, n12, n13, n14, n15,
    n16, n17, n18⟩ := isDigit_not_dispatch hd
  rw [if_neg n1, if_neg n2, if_neg n3, if_neg n4, if_neg n5, if_neg n6,
    if_neg n7, if_neg n8, if_neg n9, if_neg n10, if_neg n11, if_neg n12,
    if_neg n13, if_neg n14, if_neg n15, if_neg n16, if_neg n17, if_neg n18,
    if_pos hd, hnum]

/-- One `scan_token` call whose dispatch character satisfies `is_alpha`
and is not the letter `t` (which the whitespace arm would capture): the
identifier routine runs, consuming the maximal Unicode-alphanumeric run,
looking the consumed slice up in the keyword table, and emitting the one
new token. -/
theorem scan_token_alpha_case (src : List Char) (s : Scanner) (pos E : Nat)
    (hsrc : s.source = src) (hst : s.start = pos) (hcur : s.current = pos)
    (hpos : pos < src.length)
    (ha : Scanner.is_alpha (src.getD pos '\x00') = true)
    (hnt : src.getD pos '\x00' ≠ 't')
    (hE : E = pos + 1 + ((src.drop (pos + 1)).takeWhile rustIsAlphanumeric).length) :
    Scanner.scan_token s = some { s with
      current := E,
      tokens := s.tokens ++
        [{ token_type :=
             (keywords (String.mk (sliceCh src pos E))).getD TokenType.Identifier,
           lexeme := String.mk (sliceCh src pos E),
           literal := (keywords (String.mk (sliceCh src pos E))).map
             (fun _ => Literal.Identifier (String.mk (sliceCh src pos E))),
           line := s.line, startPos := pos, endPos := E }] } := by
  obtain ⟨src0, toks, st, cur, ln, errs⟩ := s
  try simp only [Scanner.source] at hsrc
  try simp only [Scanner.start] at hst
  try simp only [Scanner.current] at hcur
  try simp only [Scanner.source, Scanner.start, Scanner.current,
    Scanner.tokens, Scanner.line, Scanner.errors]
  subst src0 st cur
  unfold Scanner.scan_token
  unfold Scanner.advance
  simp only [List.getElem?_eq_getElem hpos]
  rw [← List.getD_eq_getElem src '\x00' hpos]
  obtain ⟨n1, n2, n3, n4, n5, n6, n7, n8, n9, n10, n11, n12, n13, n14, n15,
    n16, n17, n18, hdig⟩ := is_alpha_not_dispatch ha hnt
  rw [if_neg n1, if_neg n2, if_neg n3, if_neg n4, if_neg n5, if_neg n6,
    if_neg n7, if_neg n8, if_neg n9, if_neg n10, if_neg n11, if_neg n12,
    if_neg n13, if_neg n14, if_neg n15, if_neg n16, if_neg n17, if_neg n18,
    if_neg (fun hh => by rw [hdig] at hh; exact Bool.noConfusion hh), if_pos ha,
    identifier_spec src
      { source := src, tokens := toks, start := pos, current := pos + 1,
        line := ln, errors := errs } pos E rfl rfl rfl hE]

/-- An iteration of the scanning loop away from the end of the buffer
steps through `scan_token`. -/
theorem scan_tokens_go_of_step (fuel : Nat) (s s2 : Scanner)
    (hend : s.is_at_end = false)
    (h : Scanner.scan_token { s with start := s.current } = some s2) :
    Scanner.scan_tokens_go (fuel + 1) s = Scanner.scan_tokens_go fuel s2 := by
  simp only [Scanner.scan_tokens_go]
  rw [if_neg (by simp [hend]), h]

/-- The final iteration of the scanning loop pushes the `EOF` token. -/
theorem scan_tokens_go_of_stop (fuel : Nat) (s : Scanner)
    (hend : s.is_at_end = true) :
    Scanner.scan_tokens_go (fuel + 1) s = some { s with tokens := s.tokens ++
      [{ token_type := TokenType.EOF, lexeme := "", literal := none,
         line := s.line, startPos := s.current, endPos := s.current }] } := by
  simp only [Scanner.scan_tokens_go]
  rw [if_pos hend]

/-- Totality of the scanning loop on a buffer containing no double quote:
with enough fuel for the remaining characters, no iteration panics. -/
theorem scan_tokens_go_total {src : List Char} (hq : '"' ∉ src) :
    ∀ (fuel : Nat) (s : Scanner), s.source = src → s.current ≤ src.length →
      src.length + 1 ≤ fuel + s.current →
      ∃ r, Scanner.scan_tokens_go fuel s = some r := by
  intro fuel
  induction fuel with
  | zero =>
    intro s hsrc hle h1
    omega
  | succ fuel ih =>
    intro s hsrc hle h1
    simp only [Scanner.scan_tokens_go]
    by_cases hend : s.is_at_end = true
    · rw [if_pos hend]
      exact ⟨_, rfl⟩
    · rw [if_neg hend]
      have hlt : s.current < src.length := by
        simp [Scanner.is_at_end, hsrc] at hend
        omega
      have hq2 : src.getD s.current '\x00' ≠ '"' := by
        intro hc
        apply hq
        rw [← hc, List.getD_eq_getElem src '\x00' hlt]
        exact List.getElem_mem hlt
      obtain ⟨s2, hs2⟩ := scan_token_total { s with start := s.current }
        (by simpa using hsrc) rfl (by simpa using hlt) (by simpa using hq2)
      rw [hs2]
      obtain ⟨h2src, _, h2lt, h2le, _⟩ := scan_token_step src
        { s with start := s.current } s2 (by simpa using hsrc) rfl
        (by simpa using hlt) hs2
      have h2lt2 : s.current < s2.current := h2lt
      exact ih s2 h2src h2le (by omega)
/-- A whole scan of a one-character source whose character the model
classifies alphabetic and is not the letter `t`: one `Identifier` token
with no literal, then `EOF`, and no diagnostic. -/
theorem scanSource_single_alpha (c : Char) (ha : rustIsAlphabetic c = true)
    (hnt : c ≠ 't') :
    scanSource (String.mk [c]) = some
      { source := [c],
        tokens := [{ token_type := TokenType.Identifier, lexeme := String.mk [c],
                     literal := none, line := 1, startPos := 0, endPos := 1 },
                   { token_type := TokenType.EOF, lexeme := "", literal := none,
                     line := 1, startPos := 1, endPos := 1 }],
        start := 0, current := 1, line := 1, errors := [] } := by
  have hstep : Scanner.scan_token
      { source := [c], tokens := [], start := 0, current := 0,
        line := 1, errors := [] } = some
      { source := [c],
        tokens := [{ token_type := TokenType.Identifier, lexeme := String.mk [c],
                     literal := none, line := 1, startPos := 0, endPos := 1 }],
        start := 0, current := 1, line := 1, errors := [] } := by
    rw [scan_token_alpha_case [c]
      { source := [c], tokens := [], start := 0, current := 0,
        line := 1, errors := [] } 0 1 rfl rfl rfl (by simp)
      (by simp [Scanner.is_alpha, ha]) hnt rfl]
    rw [show sliceCh [c] 0 1 = [c] from rfl, keywords_single c]
    rfl
  calc scanSource (String.mk [c])
      = Scanner.scan_tokens_go 2
        { source := [c], tokens := [], start := 0, current := 0,
          line := 1, errors := [] } := rfl
    _ = Scanner.scan_tokens_go 1
        { source := [c],
          tokens := [{ token_type := TokenType.Identifier, lexeme := String.mk [c],
                       literal := none, line := 1, startPos := 0, endPos := 1 }],
          start := 0, current := 1, line := 1, errors := [] } :=
      scan_tokens_go_of_step 1 _ _ rfl hstep
    _ = _ := scan_tokens_go_of_stop 0 _ rfl

/-- A whole scan of the two-character source `a` followed by a character
the model classifies alphanumeric: the run continues over that character,
so one two-character `Identifier` token is produced, then `EOF`, and no
diagnostic. -/
theorem scanSource_pair_alpha (c : Char) (hc : rustIsAlphanumeric c = true) :
    scanSource (String.mk ['a', c]) = some
      { source := ['a', c],
        tokens := [{ token_type := TokenType.Identifier,
                     lexeme := String.mk ['a', c],
                     literal := none, line := 1, startPos := 0, endPos := 2 },
                   { token_type := TokenType.EOF, lexeme := "", literal := none,
                     line := 1, startPos := 2, endPos := 2 }],
        start := 0, current := 2, line := 1, errors := [] } := by
  have hstep : Scanner.scan_token
      { source := ['a', c], tokens := [], start := 0, current := 0,
        line := 1, errors := [] } = some
      { source := ['a', c],
        tokens := [{ token_type := TokenType.Identifier,
                     lexeme := String.mk ['a', c],
                     literal := none, line := 1, startPos := 0, endPos := 2 }],
        start := 0, current := 2, line := 1, errors := [] } := by
    rw [scan_token_alpha_case ['a', c]
      { source := ['a', c], tokens := [], start := 0, current := 0,
        line := 1, errors := [] } 0 2 rfl rfl rfl (by simp)
      (by show Scanner.is_alpha 'a' = true; decide)
      (by show ('a' : Char) ≠ 't'; decide)
      (by rw [show (['a', c].drop 1) = [c] from rfl,
            List.takeWhile_cons_of_pos hc]
          simp)]
    rw [show sliceCh ['a', c] 0 2 = ['a', c] from rfl, keywords_pair_a c]
    rfl
  calc scanSource (String.mk ['a', c])
      = Scanner.scan_tokens_go 3
        { source := ['a', c], tokens := [], start := 0, current := 0,
          line := 1, errors := [] } := rfl
    _ = Scanner.scan_tokens_go 2
        { source := ['a', c],
          tokens := [{ token_type := TokenType.Identifier,
                       lexeme := String.mk ['a', c],
                       literal := none, line := 1, startPos := 0, endPos := 2 }],
          start := 0, current := 2, line := 1, errors := [] } :=
      scan_tokens_go_of_step 2 _ _ rfl hstep
    _ = _ := scan_tokens_go_of_stop 1 _ rfl
/-! ### The claims -/

/-- C1 counterexample: scanning the unterminated string literal `"abc`
panics (the unconditional `advance()` after the string loop reads past the
end of the buffer), so the pass aborts with no result — it neither
produces a String token nor records a diagnostic. -/
theorem C1_unterminated_string_panics : scanSource "\"abc" = none := rfl

/-- C1 (amended): on every source containing no double quote, the pass
always completes and returns a result — unrecognized characters only record
a diagnostic and scanning continues.  (The exception, an unterminated
string literal, is the counterexample above.) -/
theorem C1_scan_completes (src : String) (hq : '"' ∉ src.data) :
    ∃ r, scanSource src = some r :=
  scan_tokens_go_total hq (src.data.length + 1) (Scanner.new src) rfl
    (Nat.zero_le _) (by omega)

theorem C1_scan_completes_witness :
    ∃ r, scanSource "var $test = 1234" = some r :=
  C1_scan_completes "var $test = 1234" (by decide)

/-- C2: the keyword claim fails on the source — the whitespace arm
`' ' | '\r' | 't'` of `scan_token` matches the letter `t`, so scanning
`this` consumes the `t` as whitespace and yields an `Identifier` token
`his` (and `true` yields `rue`); the `this` and `true` table entries are
unreachable from a scan.  The other fourteen keyword-table entries scan to
their keyword kind with literal `Identifier(text)` as claimed. -/
theorem C2_keyword_scanning_bug :
    scanSource "this" = some
      { source := "this".data,
        tokens := [{ token_type := TokenType.Identifier, lexeme := "his",
                     literal := none, line := 1, startPos := 1, endPos := 4 },
                   { token_type := TokenType.EOF, lexeme := "", literal := none,
                     line := 1, startPos := 4, endPos := 4 }],
        start := 1, current := 4, line := 1, errors := [] } ∧
    scanSource "true" = some
      { source := "true".data,
        tokens := [{ token_type := TokenType.Identifier, lexeme := "rue",
                     literal := none, line := 1, startPos := 1, endPos := 4 },
                   { token_type := TokenType.EOF, lexeme := "", literal := none,
                     line := 1, startPos := 4, endPos := 4 }],
        start := 1, current := 4, line := 1, errors := [] } ∧
    ([("and", TokenType.And), ("class", TokenType.Class),
      ("else", TokenType.Else), ("false", TokenType.False),
      ("for", TokenType.For), ("fun", TokenType.Fun), ("if", TokenType.If),
      ("nil", TokenType.Nil), ("or", TokenType.Or),
      ("print", TokenType.Print), ("return", TokenType.Return),
      ("super", TokenType.Super), ("var", TokenType.Var),
      ("while", TokenType.While)].all (fun kv =>
        match scanSource kv.1 with
        | some r =>
          r.tokens == [{ token_type := kv.2, lexeme := kv.1,
                         literal := some (Literal.Identifier kv.1), line := 1,
                         startPos := 0, endPos := kv.1.length },
                       { token_type := TokenType.EOF, lexeme := "",
                         literal := none, line := 1, startPos := kv.1.length,
                         endPos := kv.1.length }] && r.errors == []
        | none => false)) = true :=
  ⟨rfl, rfl, rfl⟩

/-- C3 counterexample: in `"a‹newline›b"` (one string literal spanning two
lines) the String token begins at position 0, before which the source has
no newline, yet its recorded line is 2 — the line of the closing quote at
push time, not of the position where the token began. -/
theorem C3_string_token_line_cex :
    scanSource "\"a\nb\"" = some
      { source := "\"a\nb\"".data,
        tokens := [{ token_type := TokenType.String, lexeme := "\"a\nb\"",
                     literal := some (Literal.String "a\nb"), line := 2,
                     startPos := 0, endPos := 5 },
                   { token_type := TokenType.EOF, lexeme := "", literal := none,
                     line := 2, startPos := 5, endPos := 5 }],
        start := 0, current := 5, line := 2, errors := [] } ∧
    1 + ("\"a\nb\"".data.take 0).count '\n' = 1 :=
  ⟨rfl, rfl⟩

/-- C3 (amended): every emitted token records 1 plus the number of source
newlines strictly before the position just after its last character; for
every token other than a String token the lexeme contains no newline, so
this equals 1 plus the newlines strictly before the position where the
token began, as claimed — String tokens instead record the line of their
closing quote. -/
theorem C3_token_lines (src : String) (r : Scanner) (t : Token)
    (h : scanSource src = some r) (ht : t ∈ r.tokens) :
    t.line = 1 + (src.data.take t.endPos).count '\n' ∧
    (t.token_type ≠ TokenType.String →
      t.line = 1 + (src.data.take t.startPos).count '\n') := by
  obtain ⟨ps, hps, hsrc, htok, herr⟩ := scanSource_final h
  rw [htok] at ht
  rcases List.mem_append.1 ht with hmem | hmem
  · obtain ⟨pos, hp⟩ := piecesFrom_token_mem hps t hmem
    obtain ⟨hstart, hend, hle, hlt, hlex, hne, hline, hnl⟩ := hp
    refine ⟨hline, fun hns => ?_⟩
    have h0 : (sliceCh src.data t.startPos t.endPos).count '\n' = 0 := by
      rw [← hlex]
      exact hnl hns
    have hsplit := count_take_split src.data t.startPos t.endPos (by omega)
    rw [hline, hsplit, h0]
    omega
  · have ht2 : t =
        { token_type := TokenType.EOF, lexeme := "", literal := none,
          line := 1 + src.data.count '\n', startPos := src.data.length,
          endPos := src.data.length } := by simpa using hmem
    subst ht2
    refine ⟨?_, fun _ => ?_⟩
    · show 1 + src.data.count '\n' = 1 + (src.data.take src.data.length).count '\n'
      rw [List.take_length]
    · show 1 + src.data.count '\n' = 1 + (src.data.take src.data.length).count '\n'
      rw [List.take_length]

theorem C3_token_lines_witness :
    (2 : Nat) = 1 + ("(\n)".data.take 3).count '\n' ∧
    (TokenType.RightParen ≠ TokenType.String →
      (2 : Nat) = 1 + ("(\n)".data.take 2).count '\n') :=
  C3_token_lines "(\n)"
    { source := "(\n)".data,
      tokens := [{ token_type := TokenType.LeftParen, lexeme := "(",
                   literal := none, line := 1, startPos := 0, endPos := 1 },
                 { token_type := TokenType.RightParen, lexeme := ")",
                   literal := none, line := 2, startPos := 2, endPos := 3 },
                 { token_type := TokenType.EOF, lexeme := "", literal := none,
                   line := 2, startPos := 3, endPos := 3 }],
      start := 2, current := 3, line := 2, errors := [] }
    { token_type := TokenType.RightParen, lexeme := ")", literal := none,
      line := 2, startPos := 2, endPos := 3 }
    rfl (by decide)
/-- C4 counterexample: `a$b` contains no whitespace and no comment, yet
concatenating the emitted lexemes gives `ab`, not `a$b` — the unrecognized
`$` is dropped from the token stream (it only records a diagnostic), so
lexeme concatenation does not reproduce the source with only whitespace
and comments removed. -/
theorem C4_round_trip_cex :
    scanSource "a$b" = some
      { source := "a$b".data,
        tokens := [{ token_type := TokenType.Identifier, lexeme := "a",
                     literal := none, line := 1, startPos := 0, endPos := 1 },
                   { token_type := TokenType.Identifier, lexeme := "b",
                     literal := none, line := 1, startPos := 2, endPos := 3 },
                   { token_type := TokenType.EOF, lexeme := "", literal := none,
                     line := 1, startPos := 3, endPos := 3 }],
        start := 2, current := 3, line := 1,
        errors := [Error.new 1 "Unexpected Character"] } ∧
    ("a$b".data.filter (fun ch =>
      ch == ' ' || ch == '\r' || ch == '\n' || ch == 't' || ch == '/')) = [] ∧
    ("a" ++ "b" : String) ≠ "a$b" :=
  ⟨rfl, rfl, by decide⟩

/-- C4 (amended): the consumed source decomposes, in order, into pieces —
token lexemes, skipped whitespace characters (space, carriage return, or
the letter `t`), newlines, line comments, and single unrecognized
characters recorded as diagnostics; concatenating the pieces reproduces
the whole source, the token vector is exactly the pieces' tokens (plus the
final `EOF`), the error vector exactly the pieces' diagnostics, and every
token's lexeme is the exact source slice between the position where its
scan began and the cursor position after its characters were consumed. -/
theorem C4_round_trip (src : String) (r : Scanner)
    (h : scanSource src = some r) :
    ∃ ps : List Piece,
      PiecesFrom src.data 0 ps src.data.length ∧
      (ps.map Piece.chars).flatten = src.data ∧
      r.tokens = ps.filterMap Piece.tokenOf ++
        [{ token_type := TokenType.EOF, lexeme := "", literal := none,
           line := 1 + src.data.count '\n', startPos := src.data.length,
           endPos := src.data.length }] ∧
      r.errors = ps.filterMap Piece.errorOf ∧
      ∀ t ∈ ps.filterMap Piece.tokenOf,
        t.lexeme.data = sliceCh src.data t.startPos t.endPos := by
  obtain ⟨ps, hps, hsrc, htok, herr⟩ := scanSource_final h
  refine ⟨ps, hps, ?_, htok, herr, ?_⟩
  · rw [piecesFrom_flat hps]
    show (src.data.take src.data.length).drop 0 = src.data
    rw [List.take_length, List.drop_zero]
  · intro t ht
    obtain ⟨pos, hp⟩ := piecesFrom_token_mem hps t ht
    exact hp.2.2.2.2.1

theorem C4_round_trip_witness :
    ∃ ps : List Piece,
      PiecesFrom "a$b".data 0 ps "a$b".data.length ∧
      (ps.map Piece.chars).flatten = "a$b".data ∧
      ({ source := "a$b".data,
         tokens := [{ token_type := TokenType.Identifier, lexeme := "a",
                      literal := none, line := 1, startPos := 0, endPos := 1 },
                    { token_type := TokenType.Identifier, lexeme := "b",
                      literal := none, line := 1, startPos := 2, endPos := 3 },
                    { token_type := TokenType.EOF, lexeme := "", literal := none,
                      line := 1, startPos := 3, endPos := 3 }],
         start := 2, current := 3, line := 1,
         errors := [Error.new 1 "Unexpected Character"] } : Scanner).tokens =
        ps.filterMap Piece.tokenOf ++
          [{ token_type := TokenType.EOF, lexeme := "", literal := none,
             line := 1 + "a$b".data.count '\n', startPos := "a$b".data.length,
             endPos := "a$b".data.length }] ∧
      ({ source := "a$b".data,
         tokens := [{ token_type := TokenType.Identifier, lexeme := "a",
                      literal := none, line := 1, startPos := 0, endPos := 1 },
                    { token_type := TokenType.Identifier, lexeme := "b",
                      literal := none, line := 1, startPos := 2, endPos := 3 },
                    { token_type := TokenType.EOF, lexeme := "", literal := none,
                      line := 1, startPos := 3, endPos := 3 }],
         start := 2, current := 3, line := 1,
         errors := [Error.new 1 "Unexpected Character"] } : Scanner).errors =
        ps.filterMap Piece.errorOf ∧
      ∀ t ∈ ps.filterMap Piece.tokenOf,
        t.lexeme.data = sliceCh "a$b".data t.startPos t.endPos :=
  C4_round_trip "a$b"
    { source := "a$b".data,
      tokens := [{ token_type := TokenType.Identifier, lexeme := "a",
                   literal := none, line := 1, startPos := 0, endPos := 1 },
                 { token_type := TokenType.Identifier, lexeme := "b",
                   literal := none, line := 1, startPos := 2, endPos := 3 },
                 { token_type := TokenType.EOF, lexeme := "", literal := none,
                   line := 1, startPos := 3, endPos := 3 }],
      start := 2, current := 3, line := 1,
      errors := [Error.new 1 "Unexpected Character"] } rfl

/-- C5 counterexample: underscores do not continue an identifier run — in
`a_b` the continuation test is `is_alphanumeric()` alone, so the run ends
at the `_` and two Identifier tokens `a` and `_b` are emitted instead of
the single maximal run `a_b` the claim describes (`_` does start a new
identifier, via `is_alpha`). -/
theorem C5_underscore_cex :
    scanSource "a_b" = some
      { source := "a_b".data,
        tokens := [{ token_type := TokenType.Identifier, lexeme := "a",
                     literal := none, line := 1, startPos := 0, endPos := 1 },
                   { token_type := TokenType.Identifier, lexeme := "_b",
                     literal := none, line := 1, startPos := 1, endPos := 3 },
                   { token_type := TokenType.EOF, lexeme := "", literal := none,
                     line := 1, startPos := 3, endPos := 3 }],
        start := 1, current := 3, line := 1, errors := [] } ∧
    Scanner.is_alpha '_' = true ∧ rustIsAlphanumeric '_' = false :=
  ⟨rfl, rfl, rfl⟩

/-- C5 (amended), verified on all-ASCII sources, where the embedded
character classification provably coincides with Rust's (`Char.isAlpha`
and `Char.isDigit` are exactly what `is_alphabetic` / `is_alphanumeric`
return below code point 128): at an in-bounds cursor whose character is
an ASCII letter or underscore — but not the letter `t`, which the
whitespace arm captures first — `scan_token` runs identifier scanning:
it consumes the maximal following run of alphanumeric characters
(underscores do NOT continue the run: the continuation test is
`is_alphanumeric` alone), looks the consumed text up in the keyword
table, and on a hit emits the keyword kind with literal
`Identifier(text)`, on a miss an `Identifier` token with no literal.
On sources with code points above 127 the scanner follows Rust's full
Unicode tables, which this embedding does not reproduce. -/
theorem C5_identifier_scanning (src : List Char) (s : Scanner) (pos E : Nat)
    (hascii : ∀ c ∈ src, c.toNat < 128)
    (hsrc : s.source = src) (hst : s.start = pos) (hcur : s.current = pos)
    (hpos : pos < src.length)
    (ha : (src.getD pos '\x00').isAlpha = true ∨ src.getD pos '\x00' = '_')
    (hnt : src.getD pos '\x00' ≠ 't')
    (hE : E = pos + 1 + ((src.drop (pos + 1)).takeWhile
      (fun ch => ch.isAlpha || ch.isDigit)).length) :
    Scanner.scan_token s = some { s with
      current := E,
      tokens := s.tokens ++
        [{ token_type :=
             (keywords (String.mk (sliceCh src pos E))).getD TokenType.Identifier,
           lexeme := String.mk (sliceCh src pos E),
           literal := (keywords (String.mk (sliceCh src pos E))).map
             (fun _ => Literal.Identifier (String.mk (sliceCh src pos E))),
           line := s.line, startPos := pos, endPos := E }] } ∧
    Scanner.is_alpha '_' = true ∧
    (('_' : Char).isAlpha || ('_' : Char).isDigit) = false := by
  have hc : src.getD pos '\x00' ∈ src := by
    rw [List.getD_eq_getElem src '\x00' hpos]
    exact List.getElem_mem hpos
  have ha2 : Scanner.is_alpha (src.getD pos '\x00') = true := by
    unfold Scanner.is_alpha
    rcases ha with hl | hr
    · rw [rustIsAlphabetic_ascii _ (hascii _ hc), hl]
      rfl
    · rw [hr]
      rfl
  have hrun : (src.drop (pos + 1)).takeWhile rustIsAlphanumeric =
      (src.drop (pos + 1)).takeWhile (fun ch => ch.isAlpha || ch.isDigit) :=
    takeWhile_pred_congr _ _ _ (fun x hx =>
      rustIsAlphanumeric_ascii x (hascii x (List.mem_of_mem_drop hx)))
  exact ⟨scan_token_alpha_case src s pos E hsrc hst hcur hpos ha2 hnt
    (by rw [hE, hrun]), rfl, rfl⟩

theorem C5_identifier_scanning_witness :
    (Scanner.scan_token
      { source := ['x', '_', 'y'], tokens := [], start := 0, current := 0,
        line := 1, errors := [] } = some
      { source := ['x', '_', 'y'],
        tokens := [{ token_type := TokenType.Identifier, lexeme := "x",
                     literal := none, line := 1, startPos := 0, endPos := 1 }],
        start := 0, current := 1, line := 1, errors := [] }) ∧
    Scanner.is_alpha '_' = true ∧
    (('_' : Char).isAlpha || ('_' : Char).isDigit) = false :=
  C5_identifier_scanning ['x', '_', 'y']
    { source := ['x', '_', 'y'], tokens := [], start := 0, current := 0,
      line := 1, errors := [] } 0 1 (by decide) rfl rfl rfl (by simp)
    (by decide) (by decide) rfl

/-- C6 counterexample: on the unterminated string literal `"x` the scan
panics and produces no token sequence at all, so the shape claim does not
hold for every input. -/
theorem C6_eof_cex : scanSource "\"x" = none := rfl

/-- C6 (amended): on every input the scan completes on, the produced
token sequence is non-empty, its last element is an `EOF` token with
empty lexeme, exactly one `EOF` token occurs in it, and the empty input
scans to the one-token sequence with no diagnostics. -/
theorem C6_token_sequence_shape (src : String) (r : Scanner)
    (h : scanSource src = some r) :
    r.tokens ≠ [] ∧
    r.tokens.getLast?.map Token.token_type = some TokenType.EOF ∧
    r.tokens.getLast?.map Token.lexeme = some "" ∧
    r.tokens.countP (fun t => t.token_type == TokenType.EOF) = 1 ∧
    (src = "" → r.tokens.length = 1 ∧ r.errors = []) := by
  obtain ⟨ps, hps, hsrc, htok, herr⟩ := scanSource_final h
  have hlast : r.tokens.getLast? = some
      { token_type := TokenType.EOF, lexeme := "", literal := none,
        line := 1 + src.data.count '\n', startPos := src.data.length,
        endPos := src.data.length } := by
    rw [htok]
    exact List.getLast?_concat _
  refine ⟨?_, ?_, ?_, ?_, ?_⟩
  · rw [htok]
    simp
  · rw [hlast]
    rfl
  · rw [hlast]
    rfl
  · rw [htok, List.countP_append]
    have h0 : (ps.filterMap Piece.tokenOf).countP
        (fun t => t.token_type == TokenType.EOF) = 0 := by
      rw [List.countP_eq_zero]
      intro t ht
      have := piecesFrom_no_eof hps t ht
      simpa using this
    rw [h0]
    rfl
  · intro hsrc0
    subst hsrc0
    have hr : r =
        { source := [],
          tokens := [{ token_type := TokenType.EOF, lexeme := "",
                       literal := none, line := 1, startPos := 0, endPos := 0 }],
          start := 0, current := 0, line := 1, errors := [] } :=
      Option.some.inj ((by rfl : scanSource "" = some _).symm.trans h).symm
    rw [hr]
    exact ⟨rfl, rfl⟩

theorem C6_token_sequence_shape_witness :
    ({ source := [],
       tokens := [{ token_type := TokenType.EOF, lexeme := "", literal := none,
                    line := 1, startPos := 0, endPos := 0 }],
       start := 0, current := 0, line := 1, errors := [] } : Scanner).tokens ≠ [] ∧
    ({ source := [],
       tokens := [{ token_type := TokenType.EOF, lexeme := "", literal := none,
                    line := 1, startPos := 0, endPos := 0 }],
       start := 0, current := 0, line := 1, errors := [] } : Scanner).tokens.getLast?.map
      Token.token_type = some TokenType.EOF ∧
    ({ source := [],
       tokens := [{ token_type := TokenType.EOF, lexeme := "", literal := none,
                    line := 1, startPos := 0, endPos := 0 }],
       start := 0, current := 0, line := 1, errors := [] } : Scanner).tokens.getLast?.map
      Token.lexeme = some "" ∧
    ({ source := [],
       tokens := [{ token_type := TokenType.EOF, lexeme := "", literal := none,
                    line := 1, startPos := 0, endPos := 0 }],
       start := 0, current := 0, line := 1, errors := [] } : Scanner).tokens.countP
      (fun t => t.token_type == TokenType.EOF) = 1 ∧
    (("" : String) = "" →
      ({ source := [],
         tokens := [{ token_type := TokenType.EOF, lexeme := "", literal := none,
                      line := 1, startPos := 0, endPos := 0 }],
         start := 0, current := 0, line := 1, errors := [] } : Scanner).tokens.length = 1 ∧
      ({ source := [],
         tokens := [{ token_type := TokenType.EOF, lexeme := "", literal := none,
                      line := 1, startPos := 0, endPos := 0 }],
         start := 0, current := 0, line := 1, errors := [] } : Scanner).errors = []) :=
  C6_token_sequence_shape ""
    { source := [],
      tokens := [{ token_type := TokenType.EOF, lexeme := "", literal := none,
                   line := 1, startPos := 0, endPos := 0 }],
      start := 0, current := 0, line := 1, errors := [] } rfl
/-- C7: at an in-bounds cursor whose character is a decimal digit,
`scan_token` consumes the maximal digit run, a following `.` only when a
digit immediately follows it (otherwise the `.` is left for the next
token) plus a further maximal digit run, parses the consumed slice and
emits one `Number` token carrying the parsed value; in particular
`11.234` and `10` scanned alone each yield one `Number` token on line 1
with values 11.234 and 10. -/
theorem C7_number_scanning :
    (∀ (src : List Char) (s : Scanner) (pos : Nat),
      s.source = src → s.start = pos → s.current = pos → pos < src.length →
      (src.getD pos '\x00').isDigit = true →
      ∃ e1 E q,
        e1 = pos + 1 + ((src.drop (pos + 1)).takeWhile Char.isDigit).length ∧
        E = (if e1 < src.length ∧ src.getD e1 '\x00' = '.' ∧
              e1 + 1 < src.length ∧ (src.getD (e1 + 1) '\x00').isDigit = true
            then e1 + 1 + ((src.drop (e1 + 1)).takeWhile Char.isDigit).length
            else e1) ∧
        parseF64 (String.mk (sliceCh src pos E)) = some q ∧
        Scanner.scan_token s = some { s with
          current := E,
          tokens := s.tokens ++
            [{ token_type := TokenType.Number,
               lexeme := String.mk (sliceCh src pos E),
               literal := some (Literal.Number q),
               line := s.line, startPos := pos, endPos := E }] }) ∧
    scanSource "11.234" = some
      { source := "11.234".data,
        tokens := [{ token_type := TokenType.Number, lexeme := "11.234",
                     literal := some (Literal.Number (11.234 : ℚ)), line := 1,
                     startPos := 0, endPos := 6 },
                   { token_type := TokenType.EOF, lexeme := "", literal := none,
                     line := 1, startPos := 6, endPos := 6 }],
        start := 0, current := 6, line := 1, errors := [] } ∧
    scanSource "10" = some
      { source := "10".data,
        tokens := [{ token_type := TokenType.Number, lexeme := "10",
                     literal := some (Literal.Number (10 : ℚ)), line := 1,
                     startPos := 0, endPos := 2 },
                   { token_type := TokenType.EOF, lexeme := "", literal := none,
                     line := 1, startPos := 2, endPos := 2 }],
        start := 0, current := 2, line := 1, errors := [] } := by
  refine ⟨?_, ?_, ?_⟩
  · intro src s pos hsrc hst hcur hpos hd
    obtain ⟨q, hpq, hsc⟩ := scan_token_digit_case src s pos
      (pos + 1 + ((src.drop (pos + 1)).takeWhile Char.isDigit).length) _
      hsrc hst hcur hpos hd rfl rfl
    exact ⟨_, _, q, rfl, rfl, hpq, hsc⟩
  · have h1 : (11.234 : ℚ) =
        (digitsVal ['1', '1'] : ℚ) +
          (digitsVal ['2', '3', '4'] : ℚ) / (10 : ℚ) ^ (3 : ℕ) := by
      rw [show digitsVal ['1', '1'] = 11 from rfl,
        show digitsVal ['2', '3', '4'] = 234 from rfl]
      norm_num
    rw [h1]
    rfl
  · have h2 : (10 : ℚ) = (digitsVal ['1', '0'] : ℚ) := by
      rw [show digitsVal ['1', '0'] = 10 from rfl]
      norm_num
    rw [h2]
    rfl

/-- C8 counterexample: the reporter's format string is
`"[Line {} ] Error: {}"` — there is a space between the line number and
the closing bracket, so the printed line differs from the claimed
bit-exact format `"[Line {n}] Error: {reason}"`. -/
theorem C8_report_format_cex :
    report_errors [Error.new 3 "Unexpected Character"] =
      ["[Line 3 ] Error: Unexpected Character"] ∧
    ("[Line 3 ] Error: Unexpected Character" : String) ≠
      "[Line 3] Error: Unexpected Character" :=
  ⟨rfl, by decide⟩

/-- C8 (amended): the reporter prints one line per diagnostic, in
diagnostic order, and the line printed for the diagnostic at index `i` is
exactly `"[Line {n} ] Error: {reason}"` — with a space before the closing
bracket. -/
theorem C8_report_format (errors : List Error) (i : Nat)
    (h : i < errors.length) :
    (report_errors errors).length = errors.length ∧
    (report_errors errors).getD i "" =
      "[Line " ++ toString (errors.getD i (Error.new 0 "")).line ++
        " ] Error: " ++ (errors.getD i (Error.new 0 "")).reason := by
  refine ⟨by simp [report_errors], ?_⟩
  simp only [report_errors, List.getD, List.get?_eq_getElem?, List.getElem?_map,
    List.getElem?_eq_getElem h, Option.map_some', Option.getD_some]

theorem C8_report_format_witness :
    (report_errors [Error.new 1 "Unexpected Character",
      Error.new 2 "Unexpected Character"]).length = 2 ∧
    (report_errors [Error.new 1 "Unexpected Character",
      Error.new 2 "Unexpected Character"]).getD 1 "" =
      "[Line 2 ] Error: Unexpected Character" :=
  C8_report_format
    [Error.new 1 "Unexpected Character", Error.new 2 "Unexpected Character"]
    1 (by decide)

/-- C9: when number scanning begins at a position holding a decimal digit
(the cursor one past it, as `scan_token` dispatches), the consumed
substring always parses — it is one or more digits optionally followed by
`.` and one or more digits — so `number` never reaches the panic branch
of the `unwrap`. -/
theorem C9_number_no_panic (src : List Char) (s : Scanner) (pos : Nat)
    (hsrc : s.source = src) (hst : s.start = pos) (hcur : s.current = pos + 1)
    (hpos : pos < src.length) (hd : (src.getD pos '\x00').isDigit = true) :
    ∃ E q, parseF64 (String.mk (sliceCh src pos E)) = some q ∧
      (Scanner.number s).isSome = true := by
  obtain ⟨q, hpq, hcz, hnum⟩ := number_spec src s pos
    (pos + 1 + ((src.drop (pos + 1)).takeWhile Char.isDigit).length) _
    hsrc hst hcur hpos hd rfl rfl
  refine ⟨_, q, hpq, ?_⟩
  rw [hnum]
  rfl

theorem C9_number_no_panic_witness :
    ∃ E q, parseF64 (String.mk (sliceCh ['4', '2'] 0 E)) = some q ∧
      (Scanner.number
        { source := ['4', '2'], tokens := [], start := 0, current := 1,
          line := 1, errors := [] }).isSome = true :=
  C9_number_no_panic ['4', '2']
    { source := ['4', '2'], tokens := [], start := 0, current := 1,
      line := 1, errors := [] } 0 rfl rfl rfl (by decide) (by decide)

